import Mathlib

/-!
# Memo game (`script.js`): deck construction, shuffle and the click handler

A shallow embedding of the game logic of `script.js`.

* Arrays are lists; DOM card elements are positions in the list of the board's children.
* An image path `assets/images/${i + 1}.png` is represented by its number `i + 1`.
* `Math.random` is an input: `draws i` is the value `Math.floor(Math.random() * (i + 1))`
  obtained in the iteration of `shuffle` whose loop variable is `i`.
* `setTimeout` callbacks are counted in the state and run by an explicit step.
-/

namespace MemoGame

/-! ## Constants -/

/-- Source: `const DEFAULT_DUPLICATES = 2`. -/
def DEFAULT_DUPLICATES : Int := 2

/-- Source: `const DEFAULT_MAX_MOVES = 999`. -/
def DEFAULT_MAX_MOVES : Int := 999

/-- Source: `const images = Array.from({ length: 32 }, (_, i) => ...)`: the path with number `i + 1`
stands at position `i`. -/
def images : List Nat := (List.range 32).map (fun i => i + 1)

/-- The element `images[i]` for an index that is always in range at its uses (`i % images.length`). -/
def imageAt (i : Nat) : Nat := images.getD i 0

/-! ## shuffle -/

/-- The destructuring swap `[arr[i], arr[j]] = [arr[j], arr[i]]`: both reads happen first, then
`arr[i]` and `arr[j]` are written in this order. -/
def swap {α : Type} (arr : List α) (i j : Nat) : List α :=
  match arr[i]?, arr[j]? with
  | some a, some b => (arr.set i b).set j a
  | _, _ => arr

/-- The loop `for (let i = ...; i > 0; i--)` of `shuffle`, started at loop variable `i`. -/
def shuffleLoop {α : Type} (draws : Nat → Nat) : Nat → List α → List α
  | 0, arr => arr
  | i + 1, arr => shuffleLoop draws i (swap arr (i + 1) (draws (i + 1)))

/-- Source: `function shuffle(arr)`: Fisher–Yates, from `i = arr.length - 1` down to `1`. -/
def shuffle {α : Type} (draws : Nat → Nat) (arr : List α) : List α :=
  shuffleLoop draws (arr.length - 1) arr

/-! ## buildCardsArray -/

/-- The value `Math.ceil(totalCards / duplicates)` for `duplicates ≥ 1`. -/
def ceilDiv (totalCards duplicates : Nat) : Nat := (totalCards + duplicates - 1) / duplicates

/-- The first loop of `buildCardsArray`: `imgs.push(images[i % images.length])` for
`i = 0 .. uniqueNeeded - 1`. -/
def selectImgs (uniqueNeeded : Nat) : List Nat :=
  (List.range uniqueNeeded).map (fun i => imageAt (i % images.length))

/-- The `imgs.forEach` loop: every image is pushed `duplicates` times. -/
def expandImgs (imgs : List Nat) (duplicates : Nat) : List Nat :=
  imgs.foldl (fun cards img => cards ++ List.replicate duplicates img) []

/-- The loop `while (cards.length < totalCards) cards.push(images[cards.length % images.length])`
with an iteration budget. -/
def padLoop (totalCards : Nat) : Nat → List Nat → List Nat
  | 0, cards => cards
  | fuel + 1, cards =>
    if cards.length < totalCards then
      padLoop totalCards fuel (cards ++ [imageAt (cards.length % images.length)])
    else cards

/-- The `while` loop of `buildCardsArray`; `totalCards - cards.length` iterations suffice, as
every iteration pushes one card (`padCards_done`). -/
def padCards (totalCards : Nat) (cards : List Nat) : List Nat :=
  padLoop totalCards (totalCards - cards.length) cards

/-- The deck before shuffling: the groups and the padding. -/
def unshuffledCards (totalCards duplicates : Nat) : List Nat :=
  padCards totalCards (expandImgs (selectImgs (ceilDiv totalCards duplicates)) duplicates)

/-- Source: `function buildCardsArray(totalCards, duplicates)`. -/
def buildCardsArray (draws : Nat → Nat) (totalCards duplicates : Nat) : List Nat :=
  (shuffle draws (unshuffledCards totalCards duplicates)).take totalCards

/-! ## Input clamping of startGame -/

/-- The idiom `parseInt(input.value) || dflt`. The argument is the result of `parseInt`, `none`
for `NaN`; `NaN` and `0` are the falsy numbers. -/
def orDefault (parsed : Option Int) (dflt : Int) : Int :=
  match parsed with
  | none => dflt
  | some n => if n = 0 then dflt else n

/-- The first four lines of `startGame`: the value assigned to `duplicateCount`. -/
def clampDuplicates (parsed : Option Int) : Int :=
  let inputDuplicates := orDefault parsed DEFAULT_DUPLICATES
  let inputDuplicates := if inputDuplicates > 10 then 10 else inputDuplicates
  max 2 inputDuplicates

/-- The next four lines of `startGame`: the value assigned to `maxMoves`. -/
def clampMaxMoves (parsed : Option Int) : Int :=
  let inputMaxMoves := orDefault parsed DEFAULT_MAX_MOVES
  let inputMaxMoves := if inputMaxMoves > 999 then DEFAULT_MAX_MOVES else inputMaxMoves
  max 1 inputMaxMoves

/-! ## Game state -/

/-- A card element of the board: the background image of its back face and the two classes
the handler adds and removes. -/
structure Card where
  src : Nat
  flipped : Bool
  matched : Bool
deriving DecidableEq

/-- The text of `modalTitle`: not yet written, `'Вітаю!'` (win) or `'Упс!'` (move limit). -/
inductive ModalTitle where
  | blank
  | congrats
  | oops
deriving DecidableEq

/-- The module-level variables of `script.js`, the board, the game-over modal, the
`memo-best-${gridSize}` entries of `localStorage` and the number of mismatch callbacks
scheduled with `setTimeout` that have not run yet. The variable `matches` is the field
`matchCount` (`matches` is a reserved word of Lean). -/
structure Game where
  gridSize : Nat
  duplicateCount : Nat
  maxMoves : Nat
  moves : Nat
  matchCount : Nat
  flipped : List Nat
  cards : List Card
  modalHidden : Bool
  modalTitle : ModalTitle
  best : Nat → Option Int
  timers : Nat

/-- Outcome of a session. -/
inductive Outcome where
  | ongoing
  | won
  | lost
deriving DecidableEq

/-- The code keeps no outcome variable: the outcome of a session is what the game-over modal
shows. -/
def outcome (s : Game) : Outcome :=
  if s.modalHidden then Outcome.ongoing
  else match s.modalTitle with
    | ModalTitle.blank => Outcome.ongoing
    | ModalTitle.congrats => Outcome.won
    | ModalTitle.oops => Outcome.lost

/-- Source: `c.classList.add('flipped')`. -/
def addFlipped (c : Card) : Card := { c with flipped := true }

/-- Source: `c.classList.remove('flipped')`. -/
def removeFlipped (c : Card) : Card := { c with flipped := false }

/-- Source: `c.classList.add('matched')`. -/
def addMatched (c : Card) : Card := { c with matched := true }

/-- Source: `flipped.forEach(c => f(c))` for an `f` that changes the classes of `c`. -/
def forEachCard (f : Card → Card) (flipped : List Nat) (cards : List Card) : List Card :=
  flipped.foldl (fun cs c => cs.modify f c) cards

/-- The value `c.querySelector('.back').style.backgroundImage` of the card at position `c`. -/
def backgroundImage (cards : List Card) (c : Nat) : Option Nat := (cards[c]?).map Card.src

/-- Source: `flipped.every(c => backgroundImage(c) === firstBg)` with `firstBg` taken from
`flipped[0]`. -/
def allSame (cards : List Card) (flipped : List Nat) : Bool :=
  match flipped with
  | [] => true
  | c0 :: _ => flipped.all (fun c => backgroundImage cards c == backgroundImage cards c0)

/-- The block run when the last group is matched: the win modal and the best score. -/
def winBlock (s : Game) : Game :=
  let s := { s with modalTitle := ModalTitle.congrats, modalHidden := false }
  match s.best s.gridSize with
  | none => { s with best := Function.update s.best s.gridSize (some (s.moves : Int)) }
  | some prevBest =>
    if (s.moves : Int) < prevBest then
      { s with best := Function.update s.best s.gridSize (some (s.moves : Int)) }
    else s

/-- The `if (allSame) ... else ...` statement. -/
def resolveGroup (s : Game) : Game :=
  if allSame s.cards s.flipped then
    let s := { s with cards := forEachCard addMatched s.flipped s.cards,
                      matchCount := s.matchCount + 1, flipped := [] }
    if s.matchCount = (s.gridSize * s.gridSize) / s.duplicateCount then winBlock s else s
  else { s with timers := s.timers + 1 }

/-- The final `if (moves >= maxMoves)` statement. -/
def limitCheck (s : Game) : Game :=
  if s.moves ≥ s.maxMoves then { s with modalTitle := ModalTitle.oops, modalHidden := false }
  else s

/-- Source: `function handleCardClick(e)` where `e.currentTarget` is the card at position `i` of the
board. A position without a card receives no event. -/
def handleCardClick (s : Game) (i : Nat) : Game :=
  match s.cards[i]? with
  | none => s
  | some card =>
    if card.flipped || card.matched || decide (s.flipped.length ≥ s.duplicateCount) ||
        (decide (s.moves ≥ s.maxMoves) && decide (s.flipped.length = 0)) then s
    else
      let s := { s with cards := s.cards.modify addFlipped i, flipped := s.flipped ++ [i] }
      if s.flipped.length = s.duplicateCount then
        limitCheck (resolveGroup { s with moves := s.moves + 1 })
      else s

/-- The body of the callback passed to `setTimeout` on a mismatch. It reads the module-level
`flipped` when it runs. -/
def mismatchCallback (s : Game) : Game :=
  { s with cards := forEachCard removeFlipped s.flipped s.cards, flipped := [] }

/-- One scheduled callback runs. -/
def fireTimer (s : Game) : Game :=
  if s.timers = 0 then s else mismatchCallback { s with timers := s.timers - 1 }

/-- The cards appended to the emptied board by `startGame`. -/
def newCards (deck : List Nat) : List Card :=
  deck.map (fun src => { src := src, flipped := false, matched := false })

/-- Source: `function startGame()`, with the results of `parseInt` on the two input fields and the
draws of the shuffle as arguments. The modal, `localStorage` and scheduled callbacks are not
touched. -/
def startGame (draws : Nat → Nat) (dupInput maxInput : Option Int) (s : Game) : Game :=
  let duplicateCount := (clampDuplicates dupInput).toNat
  let maxMoves := (clampMaxMoves maxInput).toNat
  { s with duplicateCount := duplicateCount, maxMoves := maxMoves,
           moves := 0, matchCount := 0, flipped := [],
           cards := newCards (buildCardsArray draws (s.gridSize * s.gridSize) duplicateCount) }

/-- A session right after `startGame` laid out `deck`, with the modal hidden and no callback
scheduled. -/
def freshSession (gridSize duplicateCount maxMoves : Nat) (deck : List Nat)
    (best : Nat → Option Int) : Game :=
  { gridSize := gridSize, duplicateCount := duplicateCount, maxMoves := maxMoves,
    moves := 0, matchCount := 0, flipped := [], cards := newCards deck,
    modalHidden := true, modalTitle := ModalTitle.blank, best := best, timers := 0 }

/-- A sequence of clicks. -/
def clicks (s : Game) (positions : List Nat) : Game := positions.foldl handleCardClick s

/-- States of a session: reached from `s0` by card clicks and by scheduled mismatch callbacks
running. -/
inductive Reachable (s0 : Game) : Game → Prop where
  | start : Reachable s0 s0
  | click (s : Game) (i : Nat) : Reachable s0 s → Reachable s0 (handleCardClick s i)
  | timeout (s : Game) : Reachable s0 s → 0 < s.timers → Reachable s0 (fireTimer s)

/-- The card at position `i` exists and has neither class: it shows its front. -/
def isHidden (cards : List Card) (i : Nat) : Bool :=
  match cards[i]? with
  | some c => !c.flipped && !c.matched
  | none => false

/-- The card at position `i` exists and has the class `matched`. -/
def isMatched (cards : List Card) (i : Nat) : Bool :=
  match cards[i]? with
  | some c => c.matched
  | none => false

/-- Invariant of the states of a session: the board has `gridSize * gridSize` cards, the
selected cards are distinct, face up and unmatched, `matches * duplicateCount` cards are
matched, the loss modal is shown only with the limit reached and the selection empty or full,
and the win modal only with all groups matched. -/
structure Inv (s : Game) : Prop where
  cards_length : s.cards.length = s.gridSize * s.gridSize
  dup_pos : 1 ≤ s.duplicateCount
  nodup : s.flipped.Nodup
  flipped_cards : ∀ i ∈ s.flipped,
    ∃ c, s.cards[i]? = some c ∧ c.flipped = true ∧ c.matched = false
  matched_count : s.cards.countP (fun c => c.matched) = s.matchCount * s.duplicateCount
  lost_limit : outcome s = Outcome.lost →
    s.maxMoves ≤ s.moves ∧ (s.flipped = [] ∨ s.duplicateCount ≤ s.flipped.length)
  won_all : outcome s = Outcome.won →
    s.matchCount = s.gridSize * s.gridSize / s.duplicateCount

/-- The state of the new session when a callback scheduled before the restart runs: the game
was restarted from the state `old` and the positions `p` were clicked on the new board. -/
def afterRestart (old : Game) (draws : Nat → Nat) (dupInput maxInput : Option Int)
    (p : List Nat) : Game :=
  clicks (startGame draws dupInput maxInput old) p

/-! ## Concrete inputs used in the examples below -/

/-- The draws `j = i` at every step: every swap exchanges a position with itself. -/
def idDraws : Nat → Nat := fun i => i

/-- The draws `j = i` except for `j = 6` at `i = 17`. -/
def cexDraws : Nat → Nat := fun i => if i = 17 then 6 else i

/-- The draws `j = ⌊i / 2⌋`. -/
def halfDraws : Nat → Nat := fun i => i / 2

/-- No best score stored. -/
def noBest : Nat → Option Int := fun _ => none

/-- A deck of 8 pairs as `buildCardsArray` returns it for the draws `halfDraws`:
`[5, 1, 7, 1, 6, 2, 8, 2, 5, 3, 6, 3, 7, 4, 8, 4]`. -/
def shuffledDeck : List Nat := buildCardsArray halfDraws 16 2

/-- The positions of `shuffledDeck`, pair by pair. -/
def shuffledGroups : List (List Nat) :=
  [[1, 3], [5, 7], [9, 11], [13, 15], [0, 8], [4, 10], [2, 12], [6, 14]]

/-- The deck of 8 pairs in the order in which it is built: `[1, 1, 2, 2, ..., 8, 8]`. -/
def pairsDeck : List Nat := buildCardsArray idDraws 16 2

/-- A deck of 16 cards for groups of 6: `[1, 1, 1, 1, 1, 1, 2, 2, 2, 2, 2, 2, 3, 3, 3, 3]`. -/
def sixesDeck : List Nat := buildCardsArray idDraws 16 6

/-- The best score 10 stored for the grid size 4 and nothing else. -/
def tenBest : Nat → Option Int := fun k => if k = 4 then some 10 else none

/-- The session of 8 pairs, limit 50 and stored best 10 in which all cards but the last were
clicked in order: seven pairs are matched and one card of the eighth is flipped. -/
def lastPairState : Game := clicks (freshSession 4 2 50 pairsDeck tenBest) (List.range 15)

/-- A session of 8 pairs in which two cards of different faces were clicked: the mismatch
callback is scheduled and has not run. -/
def pendingSession : Game := clicks (freshSession 4 2 50 pairsDeck noBest) [0, 2]

/-- The restart during the delay: `startGame` with the inputs 2 and 50. -/
def restartedSession : Game := startGame idDraws (some 2) (some 50) pendingSession

/-- One card is clicked in the new session. -/
def restartedOneClick : Game := handleCardClick restartedSession 0

/-- The session of 16 cards in groups of 6, limit 999, after the first twelve cards were
clicked in order: both full groups are matched, the win modal is shown and the four cards of
the cut group are face down. -/
def wonSixes : Game := clicks (freshSession 4 6 999 sixesDeck noBest) (List.range 12)

/-! ## Lemmas on shuffle -/

theorem swap_perm {α : Type} (arr : List α) (i j : Nat) : (swap arr i j).Perm arr := by
  classical
  unfold swap
  split
  · rename_i a b ha hb
    obtain ⟨hi, hai⟩ := List.getElem?_eq_some_iff.mp ha
    obtain ⟨hj, hbj⟩ := List.getElem?_eq_some_iff.mp hb
    rw [List.perm_iff_count]
    intro x
    rw [List.count_set _ _ _ _ (by simpa using hj), List.count_set _ _ _ _ hi]
    by_cases hij : i = j
    · subst hij
      have hab : a = b := by rw [← hai, ← hbj]
      subst hab
      simp only [List.getElem_set_self]
      have hpos : 0 < List.count x arr ∨ ¬ (a == x) = true := by
        by_cases hax : a = x
        · left; subst hax; exact List.count_pos_iff.mpr (hai ▸ List.getElem_mem _)
        · right; simpa using hax
      simp only [hai]
      rcases hpos with h | h
      · split <;> omega
      · simp [h]
    · rw [List.getElem_set_ne hij]
      simp only [hai, hbj]
      have h1 : (a == x) = true → 0 < List.count x arr := by
        intro h
        have : a = x := by simpa using h
        subst this
        exact List.count_pos_iff.mpr (hai ▸ List.getElem_mem _)
      have h2 : (b == x) = true → 0 < List.count x arr := by
        intro h
        have : b = x := by simpa using h
        subst this
        exact List.count_pos_iff.mpr (hbj ▸ List.getElem_mem _)
      by_cases hax : (a == x) = true <;> by_cases hbx : (b == x) = true
      · have := h1 hax
        simp only [hax, hbx, if_true]
        omega
      · have := h1 hax
        simp only [hax, hbx, if_true]
        simp
        omega
      · have := h2 hbx
        simp only [hax, hbx, if_true]
        simp
      · simp [hax, hbx]
  · exact List.Perm.refl _

theorem shuffleLoop_perm {α : Type} (draws : Nat → Nat) (i : Nat) (arr : List α) :
    (shuffleLoop draws i arr).Perm arr := by
  induction i generalizing arr with
  | zero => exact List.Perm.refl _
  | succ i ih => exact (ih _).trans (swap_perm arr (i + 1) (draws (i + 1)))

theorem shuffle_perm_aux {α : Type} (draws : Nat → Nat) (arr : List α) :
    (shuffle draws arr).Perm arr := shuffleLoop_perm draws _ arr

theorem imageAt_of_lt {i : Nat} (h : i < 32) : imageAt i = i + 1 := by
  unfold imageAt images
  rw [List.getD_eq_getElem?_getD, List.getElem?_map, List.getElem?_range h]
  rfl

theorem images_length : images.length = 32 := by simp [images]

theorem foldl_replicate_eq (imgs : List Nat) (duplicates : Nat) (acc : List Nat) :
    imgs.foldl (fun cards img => cards ++ List.replicate duplicates img) acc
      = acc ++ (imgs.map (List.replicate duplicates)).flatten := by
  induction imgs generalizing acc with
  | nil => simp
  | cons x xs ih => simp [ih]

theorem expandImgs_eq (imgs : List Nat) (duplicates : Nat) :
    expandImgs imgs duplicates = (imgs.map (List.replicate duplicates)).flatten := by
  simp [expandImgs, foldl_replicate_eq]

theorem expandImgs_length (imgs : List Nat) (duplicates : Nat) :
    (expandImgs imgs duplicates).length = imgs.length * duplicates := by
  rw [expandImgs_eq]
  induction imgs with
  | nil => simp
  | cons x xs ih => simp [ih, Nat.add_mul, Nat.add_comm]

theorem expandImgs_count (imgs : List Nat) (duplicates f : Nat) :
    (expandImgs imgs duplicates).count f = imgs.count f * duplicates := by
  rw [expandImgs_eq]
  induction imgs with
  | nil => simp
  | cons x xs ih =>
    simp only [List.map_cons, List.flatten_cons, List.count_append, ih, List.count_cons,
      List.count_replicate]
    by_cases h : x = f <;> simp [h, Nat.add_mul, Nat.add_comm]

theorem padLoop_of_le (totalCards fuel : Nat) (cards : List Nat) (h : totalCards ≤ cards.length) :
    padLoop totalCards fuel cards = cards := by
  cases fuel with
  | zero => rfl
  | succ n => simp [padLoop, Nat.not_lt.mpr h]

theorem padLoop_done (totalCards fuel : Nat) (cards : List Nat)
    (h : totalCards ≤ cards.length + fuel) :
    totalCards ≤ (padLoop totalCards fuel cards).length := by
  induction fuel generalizing cards with
  | zero => simpa [padLoop] using h
  | succ n ih =>
    unfold padLoop
    split
    · apply ih
      simp
      omega
    · omega

/-- The iteration budget of `padCards` is enough: the loop ends because its condition is false. -/
theorem padCards_done (totalCards : Nat) (cards : List Nat) :
    ¬ (padCards totalCards cards).length < totalCards := by
  have := padLoop_done totalCards (totalCards - cards.length) cards (by omega)
  unfold padCards
  omega

theorem le_ceilDiv_mul (totalCards duplicates : Nat) (h : 0 < duplicates) :
    totalCards ≤ ceilDiv totalCards duplicates * duplicates := by
  unfold ceilDiv
  have h1 := Nat.div_add_mod (totalCards + duplicates - 1) duplicates
  have h2 := Nat.mod_lt (totalCards + duplicates - 1) h
  have h3 : duplicates * ((totalCards + duplicates - 1) / duplicates)
      = (totalCards + duplicates - 1) / duplicates * duplicates := Nat.mul_comm _ _
  omega

theorem ceilDiv_mul_lt (totalCards duplicates : Nat) (h : 0 < duplicates) :
    ceilDiv totalCards duplicates * duplicates < totalCards + duplicates := by
  unfold ceilDiv
  have h1 := Nat.div_add_mod (totalCards + duplicates - 1) duplicates
  have h3 : duplicates * ((totalCards + duplicates - 1) / duplicates)
      = (totalCards + duplicates - 1) / duplicates * duplicates := Nat.mul_comm _ _
  omega

theorem selectImgs_length (u : Nat) : (selectImgs u).length = u := by simp [selectImgs]

theorem unshuffledCards_eq (totalCards duplicates : Nat) (h : 0 < duplicates) :
    unshuffledCards totalCards duplicates
      = expandImgs (selectImgs (ceilDiv totalCards duplicates)) duplicates := by
  unfold unshuffledCards padCards
  apply padLoop_of_le
  rw [expandImgs_length, selectImgs_length]
  exact le_ceilDiv_mul totalCards duplicates h

theorem unshuffledCards_length (totalCards duplicates : Nat) (h : 0 < duplicates) :
    (unshuffledCards totalCards duplicates).length = ceilDiv totalCards duplicates * duplicates := by
  rw [unshuffledCards_eq _ _ h, expandImgs_length, selectImgs_length]

/-! ## Lemmas on the pool and the counts of the deck -/

theorem selectImgs_eq (u : Nat) (h : u ≤ 32) :
    selectImgs u = (List.range u).map (fun i => i + 1) := by
  unfold selectImgs
  apply List.map_congr_left
  intro i hi
  have hi' : i < u := List.mem_range.mp hi
  rw [images_length, Nat.mod_eq_of_lt (by omega), imageAt_of_lt (by omega)]

theorem selectImgs_count (u f : Nat) (h : u ≤ 32) :
    (selectImgs u).count f = if 1 ≤ f ∧ f ≤ u then 1 else 0 := by
  rw [selectImgs_eq u h]
  have hnd : ((List.range u).map (fun i => i + 1)).Nodup :=
    List.Nodup.map (fun a b hab => by simpa using hab) (List.nodup_range u)
  rw [List.count_eq_of_nodup hnd]
  have hmem : f ∈ (List.range u).map (fun i => i + 1) ↔ (1 ≤ f ∧ f ≤ u) := by
    simp only [List.mem_map, List.mem_range]
    constructor
    · rintro ⟨i, hi, rfl⟩; omega
    · rintro ⟨h1, h2⟩; exact ⟨f - 1, by omega, by omega⟩
  by_cases hf : 1 ≤ f ∧ f ≤ u
  · rw [if_pos (hmem.mpr hf), if_pos hf]
  · rw [if_neg (fun hm => hf (hmem.mp hm)), if_neg hf]

theorem unshuffledCards_count (totalCards duplicates f : Nat) (h : 0 < duplicates)
    (hpool : ceilDiv totalCards duplicates ≤ 32) :
    (unshuffledCards totalCards duplicates).count f
      = if 1 ≤ f ∧ f ≤ ceilDiv totalCards duplicates then duplicates else 0 := by
  rw [unshuffledCards_eq _ _ h, expandImgs_count, selectImgs_count _ _ hpool]
  split <;> simp

theorem buildCardsArray_subperm (draws : Nat → Nat) (totalCards duplicates : Nat) :
    (buildCardsArray draws totalCards duplicates).Subperm (unshuffledCards totalCards duplicates) :=
  ((List.take_sublist _ _).subperm).trans (shuffle_perm_aux draws _).subperm

theorem count_take_ge (l : List Nat) (n f : Nat) :
    l.count f ≤ (l.take n).count f + (l.length - n) := by
  have h : l.count f = (l.take n).count f + (l.drop n).count f := by
    conv_lhs => rw [← List.take_append_drop n l]
    exact List.count_append _ _ _
  have h2 : (l.drop n).count f ≤ (l.drop n).length := List.count_le_length _ _
  rw [List.length_drop] at h2
  omega

/-! ## Shuffle and deck: the main statements -/

/-- C8: for every input array, of any length, and every sequence of draws `j = draws i` with
`0 ≤ j ≤ i` at each step, `shuffle` returns a permutation of its input (the same multiset of
elements), and so a list of the same length. -/
theorem shuffle_permutation {α : Type} (draws : Nat → Nat) (arr : List α)
    (_hdraws : ∀ i, draws i ≤ i) :
    (shuffle draws arr).Perm arr ∧ (shuffle draws arr).length = arr.length :=
  ⟨shuffle_perm_aux draws arr, (shuffle_perm_aux draws arr).length_eq⟩

theorem shuffle_permutation_witness :
    (∀ i, halfDraws i ≤ i) ∧
    ((shuffle halfDraws [10, 20, 30, 40, 50]).Perm [10, 20, 30, 40, 50] ∧
      (shuffle halfDraws [10, 20, 30, 40, 50]).length = [10, 20, 30, 40, 50].length) :=
  ⟨fun i => Nat.div_le_self i 2,
    shuffle_permutation halfDraws [10, 20, 30, 40, 50] (fun i => Nat.div_le_self i 2)⟩

/-- C1: for every `totalCards ≥ 0`, every `groupSize ≥ 2` and every sequence of draws used by
`shuffle`, `buildCardsArray totalCards groupSize` has length exactly `totalCards`, also when
`groupSize` does not divide `totalCards`. -/
theorem buildCardsArray_length (draws : Nat → Nat) (totalCards groupSize : Nat)
    (h : 2 ≤ groupSize) : (buildCardsArray draws totalCards groupSize).length = totalCards := by
  unfold buildCardsArray
  rw [List.length_take, (shuffle_perm_aux draws _).length_eq,
    unshuffledCards_length _ _ (by omega)]
  exact Nat.min_eq_left (le_ceilDiv_mul totalCards groupSize (by omega))

theorem buildCardsArray_length_witness :
    2 ≤ 6 ∧ (buildCardsArray cexDraws 16 6).length = 16 :=
  ⟨by decide, buildCardsArray_length cexDraws 16 6 (by decide)⟩

theorem cexDeck_eq :
    buildCardsArray cexDraws (4 * 4) 6 = [1, 1, 1, 1, 1, 1, 3, 2, 2, 2, 2, 2, 3, 3, 3, 3] := by
  decide

/-- C2 fails as stated: for `gridSize = 4`, `groupSize = 6` and legal draws, the faces 2 and 3
both occur 5 times, so no single face carries the whole truncation. -/
theorem buildCardsArray_two_truncated :
    (∀ i, cexDraws i ≤ i) ∧
    ¬ ∃ f0, ∀ f ∈ buildCardsArray cexDraws (4 * 4) 6,
        f ≠ f0 → (buildCardsArray cexDraws (4 * 4) 6).count f = 6 := by
  refine ⟨fun i => ?_, ?_⟩
  · unfold cexDraws
    split <;> omega
  · rintro ⟨f0, h⟩
    rw [cexDeck_eq] at h
    by_cases h2 : f0 = 2
    · have := h 3 (by simp) (by omega)
      simp at this
    · have := h 2 (by simp) (fun e => h2 e.symm)
      simp at this

/-- C2, amended: when the pool is not wrapped (`⌈totalCards / groupSize⌉ ≤ 32`), the deck is
the multiset of full groups with `⌈totalCards / groupSize⌉ * groupSize - totalCards`, fewer
than `groupSize`, cards removed; every face of a group occurs in the deck at least once and at
most `groupSize` times, and exactly `groupSize` times when `groupSize` divides `totalCards`. -/
theorem buildCardsArray_counts (draws : Nat → Nat) (totalCards groupSize : Nat)
    (h : 2 ≤ groupSize) (hpool : ceilDiv totalCards groupSize ≤ images.length) :
    (buildCardsArray draws totalCards groupSize).Subperm (unshuffledCards totalCards groupSize) ∧
    (unshuffledCards totalCards groupSize).length
      = totalCards + (ceilDiv totalCards groupSize * groupSize - totalCards) ∧
    ceilDiv totalCards groupSize * groupSize - totalCards < groupSize ∧
    (∀ f, f ∈ buildCardsArray draws totalCards groupSize ↔
      (1 ≤ f ∧ f ≤ ceilDiv totalCards groupSize)) ∧
    (∀ f ∈ buildCardsArray draws totalCards groupSize,
      (unshuffledCards totalCards groupSize).count f = groupSize ∧
      1 ≤ (buildCardsArray draws totalCards groupSize).count f ∧
      (buildCardsArray draws totalCards groupSize).count f ≤ groupSize) ∧
    (groupSize ∣ totalCards → ∀ f ∈ buildCardsArray draws totalCards groupSize,
      (buildCardsArray draws totalCards groupSize).count f = groupSize) := by
  have hd : 0 < groupSize := by omega
  rw [images_length] at hpool
  have hsub := buildCardsArray_subperm draws totalCards groupSize
  have hlen := unshuffledCards_length totalCards groupSize hd
  have hle := le_ceilDiv_mul totalCards groupSize hd
  have hlt := ceilDiv_mul_lt totalCards groupSize hd
  have hcnt := fun f => unshuffledCards_count totalCards groupSize f hd hpool
  have hlow : ∀ f, (unshuffledCards totalCards groupSize).count f
      ≤ (buildCardsArray draws totalCards groupSize).count f
        + (ceilDiv totalCards groupSize * groupSize - totalCards) := by
    intro f
    have h1 := count_take_ge (shuffle draws (unshuffledCards totalCards groupSize))
      totalCards f
    rw [(shuffle_perm_aux draws _).length_eq, hlen,
      (shuffle_perm_aux draws (unshuffledCards totalCards groupSize)).count_eq] at h1
    exact h1
  have hmem : ∀ f, f ∈ buildCardsArray draws totalCards groupSize ↔
      (1 ≤ f ∧ f ≤ ceilDiv totalCards groupSize) := by
    intro f
    constructor
    · intro hf
      have h1 : 0 < (unshuffledCards totalCards groupSize).count f :=
        List.count_pos_iff.mpr (hsub.subset hf)
      rw [hcnt f] at h1
      by_contra hn
      rw [if_neg hn] at h1
      omega
    · intro hf
      have h1 := hlow f
      rw [hcnt f, if_pos hf] at h1
      exact List.count_pos_iff.mp (by omega)
  have hfull : ∀ f ∈ buildCardsArray draws totalCards groupSize,
      (unshuffledCards totalCards groupSize).count f = groupSize := by
    intro f hf
    rw [hcnt f, if_pos ((hmem f).mp hf)]
  refine ⟨hsub, by omega, by omega, hmem, ?_, ?_⟩
  · intro f hf
    refine ⟨hfull f hf, List.count_pos_iff.mpr hf, ?_⟩
    have := hsub.count_le f
    rw [hfull f hf] at this
    exact this
  · intro hdvd f hf
    have hup := hsub.count_le f
    have hl := hlow f
    rw [hfull f hf] at hup hl
    have hex : ceilDiv totalCards groupSize * groupSize = totalCards := by
      obtain ⟨k, hk⟩ := hdvd
      have h1 : ceilDiv totalCards groupSize = k := by
        unfold ceilDiv
        rw [hk]
        have : groupSize * k + groupSize - 1 = (groupSize - 1) + groupSize * k := by omega
        rw [this, Nat.add_mul_div_left _ _ hd, Nat.div_eq_of_lt (by omega)]
        omega
      rw [h1, hk, Nat.mul_comm]
    omega

theorem buildCardsArray_counts_witness :
    (2 ≤ 6 ∧ ceilDiv 16 6 ≤ images.length) ∧
    ((buildCardsArray cexDraws 16 6).Subperm (unshuffledCards 16 6) ∧
    (unshuffledCards 16 6).length = 16 + (ceilDiv 16 6 * 6 - 16) ∧
    ceilDiv 16 6 * 6 - 16 < 6 ∧
    (∀ f, f ∈ buildCardsArray cexDraws 16 6 ↔ (1 ≤ f ∧ f ≤ ceilDiv 16 6)) ∧
    (∀ f ∈ buildCardsArray cexDraws 16 6,
      (unshuffledCards 16 6).count f = 6 ∧
      1 ≤ (buildCardsArray cexDraws 16 6).count f ∧
      (buildCardsArray cexDraws 16 6).count f ≤ 6) ∧
    (6 ∣ 16 → ∀ f ∈ buildCardsArray cexDraws 16 6,
      (buildCardsArray cexDraws 16 6).count f = 6)) :=
  ⟨⟨by decide, by decide⟩, buildCardsArray_counts cexDraws 16 6 (by decide) (by decide)⟩

/-! ## Lemmas on the classes of the cards -/

theorem forEachCard_cons (f : Card → Card) (i : Nat) (L : List Nat) (cards : List Card) :
    forEachCard f (i :: L) cards = forEachCard f L (cards.modify f i) := rfl

theorem forEachCard_nil (f : Card → Card) (cards : List Card) : forEachCard f [] cards = cards :=
  rfl

theorem forEachCard_append (f : Card → Card) (L M : List Nat) (cards : List Card) :
    forEachCard f (L ++ M) cards = forEachCard f M (forEachCard f L cards) := by
  simp [forEachCard, List.foldl_append]

theorem forEachCard_length (f : Card → Card) (L : List Nat) (cards : List Card) :
    (forEachCard f L cards).length = cards.length := by
  induction L generalizing cards with
  | nil => rfl
  | cons i L ih => rw [forEachCard_cons, ih, List.length_modify]

theorem forEachCard_getElem?_of_not_mem (f : Card → Card) (L : List Nat) (cards : List Card)
    (j : Nat) (h : j ∉ L) : (forEachCard f L cards)[j]? = cards[j]? := by
  induction L generalizing cards with
  | nil => rfl
  | cons i L ih =>
    rw [forEachCard_cons, ih _ (fun hm => h (List.mem_cons_of_mem _ hm))]
    exact List.getElem?_modify_ne f cards (fun e => h (e ▸ List.mem_cons_self _ _))

theorem forEachCard_getElem?_of_mem (f : Card → Card) (hf : ∀ c, f (f c) = f c) (L : List Nat)
    (cards : List Card) (j : Nat) (h : j ∈ L) :
    (forEachCard f L cards)[j]? = (cards[j]?).map f := by
  induction L generalizing cards with
  | nil => cases h
  | cons i L ih =>
    rw [forEachCard_cons]
    by_cases hj : j ∈ L
    · rw [ih _ hj, List.getElem?_modify]
      cases cards[j]? with
      | none => rfl
      | some c => by_cases e : i = j <;> simp [e, hf]
    · have e : j = i := by
        rcases List.mem_cons.mp h with e | e
        · exact e
        · exact absurd e hj
      subst e
      rw [forEachCard_getElem?_of_not_mem f L _ j hj, List.getElem?_modify]
      cases cards[j]? with
      | none => rfl
      | some c => simp

theorem addFlipped_idem (c : Card) : addFlipped (addFlipped c) = addFlipped c := rfl
theorem addMatched_idem (c : Card) : addMatched (addMatched c) = addMatched c := rfl
theorem removeFlipped_idem (c : Card) : removeFlipped (removeFlipped c) = removeFlipped c := rfl

theorem backgroundImage_modify (f : Card → Card) (hf : ∀ c, (f c).src = c.src) (i : Nat)
    (cards : List Card) (j : Nat) :
    backgroundImage (cards.modify f i) j = backgroundImage cards j := by
  unfold backgroundImage
  rw [List.getElem?_modify]
  cases cards[j]? with
  | none => rfl
  | some c => by_cases e : i = j <;> simp [e, hf]

theorem backgroundImage_forEachCard (f : Card → Card) (hf : ∀ c, (f c).src = c.src)
    (L : List Nat) (cards : List Card) (j : Nat) :
    backgroundImage (forEachCard f L cards) j = backgroundImage cards j := by
  induction L generalizing cards with
  | nil => rfl
  | cons i L ih => rw [forEachCard_cons, ih, backgroundImage_modify f hf]

theorem allSame_congr (cards cards' : List Card) (L : List Nat)
    (h : ∀ j, backgroundImage cards' j = backgroundImage cards j) :
    allSame cards' L = allSame cards L := by
  unfold allSame
  cases L with
  | nil => rfl
  | cons c0 L => simp only [h]

theorem countP_modify_same (p : Card → Bool) (f : Card → Card) (hf : ∀ c, p (f c) = p c)
    (i : Nat) (cards : List Card) : (cards.modify f i).countP p = cards.countP p := by
  induction cards generalizing i with
  | nil => simp
  | cons c cs ih =>
    cases i with
    | zero => simp [List.countP_cons, hf]
    | succ i => simp [List.countP_cons, ih]

theorem countP_forEachCard_same (p : Card → Bool) (f : Card → Card) (hf : ∀ c, p (f c) = p c)
    (L : List Nat) (cards : List Card) : (forEachCard f L cards).countP p = cards.countP p := by
  induction L generalizing cards with
  | nil => rfl
  | cons i L ih => rw [forEachCard_cons, ih, countP_modify_same p f hf]

theorem countP_modify_addMatched (cards : List Card) (i : Nat) (c : Card)
    (h : cards[i]? = some c) (hm : c.matched = false) :
    (cards.modify addMatched i).countP (fun c => c.matched)
      = cards.countP (fun c => c.matched) + 1 := by
  induction cards generalizing i with
  | nil => simp at h
  | cons d ds ih =>
    cases i with
    | zero =>
      simp only [List.getElem?_cons_zero, Option.some.injEq] at h
      subst h
      simp [List.countP_cons, addMatched, hm]
    | succ i =>
      simp only [List.getElem?_cons_succ] at h
      simp only [List.modify_succ_cons, List.countP_cons, ih i h]
      omega

theorem countP_forEachCard_addMatched (L : List Nat) (cards : List Card) (hnd : L.Nodup)
    (h : ∀ i ∈ L, ∃ c, cards[i]? = some c ∧ c.matched = false) :
    (forEachCard addMatched L cards).countP (fun c => c.matched)
      = cards.countP (fun c => c.matched) + L.length := by
  induction L generalizing cards with
  | nil => rfl
  | cons i L ih =>
    obtain ⟨c, hc, hm⟩ := h i (List.mem_cons_self _ _)
    have hnd' := List.nodup_cons.mp hnd
    rw [forEachCard_cons, ih _ hnd'.2, countP_modify_addMatched cards i c hc hm]
    · simp only [List.length_cons]
      omega
    · intro j hj
      obtain ⟨d, hd, hdm⟩ := h j (List.mem_cons_of_mem _ hj)
      refine ⟨d, ?_, hdm⟩
      rw [List.getElem?_modify_ne _ _ (fun e : i = j => hnd'.1 (e.symm ▸ hj))]
      exact hd

/-- Distinct positions of unmatched cards are at most as many as the unmatched cards. -/
theorem length_le_unmatched (L : List Nat) (cards : List Card) (hnd : L.Nodup)
    (h : ∀ i ∈ L, ∃ c, cards[i]? = some c ∧ c.matched = false) :
    cards.countP (fun c => c.matched) + L.length ≤ cards.length := by
  rw [← countP_forEachCard_addMatched L cards hnd h, ← forEachCard_length addMatched L cards]
  exact List.countP_le_length _

/-! ## The click handler on a group of clicks -/

theorem isHidden_iff (cards : List Card) (i : Nat) :
    isHidden cards i = true ↔ ∃ c, cards[i]? = some c ∧ c.flipped = false ∧ c.matched = false := by
  unfold isHidden
  cases cards[i]? with
  | none => simp
  | some c => simp

theorem handleCardClick_select (s : Game) (i : Nat) (hh : isHidden s.cards i = true)
    (hlen : s.flipped.length + 1 < s.duplicateCount)
    (hmv : s.moves < s.maxMoves ∨ s.flipped ≠ []) :
    handleCardClick s i
      = { s with cards := s.cards.modify addFlipped i, flipped := s.flipped ++ [i] } := by
  obtain ⟨c, hc, hf, hm⟩ := (isHidden_iff _ _).mp hh
  have h1 : ¬ s.duplicateCount ≤ s.flipped.length := by omega
  have h2 : ¬ (s.maxMoves ≤ s.moves ∧ s.flipped = []) := by
    rintro ⟨ha, hb⟩
    rcases hmv with h | h
    · omega
    · exact h hb
  have h3 : ¬ s.flipped.length + 1 = s.duplicateCount := by omega
  simp [handleCardClick, hc, hf, hm, h1, h2, h3]

theorem handleCardClick_complete (s : Game) (i : Nat) (hh : isHidden s.cards i = true)
    (hlen : s.flipped.length + 1 = s.duplicateCount)
    (hmv : s.moves < s.maxMoves ∨ s.flipped ≠ []) :
    handleCardClick s i
      = limitCheck (resolveGroup { s with cards := s.cards.modify addFlipped i,
                                          flipped := s.flipped ++ [i],
                                          moves := s.moves + 1 }) := by
  obtain ⟨c, hc, hf, hm⟩ := (isHidden_iff _ _).mp hh
  have h1 : ¬ s.duplicateCount ≤ s.flipped.length := by omega
  have h2 : ¬ (s.maxMoves ≤ s.moves ∧ s.flipped = []) := by
    rintro ⟨ha, hb⟩
    rcases hmv with h | h
    · omega
    · exact h hb
  simp [handleCardClick, hc, hf, hm, h1, h2, hlen]

theorem isHidden_modify_ne (f : Card → Card) (cards : List Card) (i j : Nat) (h : i ≠ j) :
    isHidden (cards.modify f i) j = isHidden cards j := by
  unfold isHidden
  rw [List.getElem?_modify_ne f cards h]

theorem isHidden_forEachCard_of_not_mem (f : Card → Card) (L : List Nat) (cards : List Card)
    (j : Nat) (h : j ∉ L) : isHidden (forEachCard f L cards) j = isHidden cards j := by
  unfold isHidden
  rw [forEachCard_getElem?_of_not_mem f L cards j h]

theorem clicks_nil (s : Game) : clicks s [] = s := rfl

theorem clicks_cons (s : Game) (i : Nat) (p : List Nat) :
    clicks s (i :: p) = clicks (handleCardClick s i) p := rfl

theorem clicks_append (s : Game) (p q : List Nat) :
    clicks s (p ++ q) = clicks (clicks s p) q := by
  simp [clicks, List.foldl_append]

theorem clicks_select (p : List Nat) (s : Game) (hnd : p.Nodup)
    (hh : ∀ i ∈ p, isHidden s.cards i = true)
    (hlen : s.flipped.length + p.length < s.duplicateCount)
    (hmv : s.moves < s.maxMoves ∨ s.flipped ≠ []) :
    clicks s p = { s with cards := forEachCard addFlipped p s.cards,
                          flipped := s.flipped ++ p } := by
  induction p generalizing s with
  | nil => simp [clicks_nil, forEachCard_nil]
  | cons i p ih =>
    have hnd' := List.nodup_cons.mp hnd
    simp only [List.length_cons] at hlen
    rw [clicks_cons, handleCardClick_select s i (hh i (List.mem_cons_self _ _)) (by omega) hmv,
      ih _ hnd'.2]
    · simp [forEachCard_cons]
    · intro j hj
      simp only
      rw [isHidden_modify_ne _ _ _ _ (fun e : i = j => hnd'.1 (e.symm ▸ hj))]
      exact hh j (List.mem_cons_of_mem _ hj)
    · simp only [List.length_append, List.length_singleton]
      omega
    · right
      simp

theorem clicks_group (g : List Nat) (s : Game) (hs : s.flipped = [])
    (hg : g.length = s.duplicateCount) (hne : g ≠ []) (hnd : g.Nodup)
    (hh : ∀ i ∈ g, isHidden s.cards i = true) (hmv : s.moves < s.maxMoves) :
    clicks s g = limitCheck (resolveGroup { s with cards := forEachCard addFlipped g s.cards,
                                                   flipped := g, moves := s.moves + 1 }) := by
  obtain ⟨p, l, rfl⟩ : ∃ p l, g = p ++ [l] :=
    ⟨g.dropLast, g.getLast hne, (List.dropLast_append_getLast hne).symm⟩
  have hnd' := List.nodup_append.mp hnd
  have hlp : l ∉ p := fun hm => hnd'.2.2 hm (List.mem_singleton_self l)
  simp only [List.length_append, List.length_singleton] at hg
  rw [clicks_append, clicks_select p s hnd'.1 (fun i hi => hh i (List.mem_append_left _ hi))
    (by rw [hs]; simp; omega) (Or.inl hmv)]
  rw [clicks_cons, clicks_nil, handleCardClick_complete]
  · simp [hs, forEachCard_append, forEachCard_cons, forEachCard_nil]
  · simp only
    rw [isHidden_forEachCard_of_not_mem _ _ _ _ hlp]
    exact hh l (List.mem_append_right _ (List.mem_singleton_self l))
  · simp [hs, hg]
  · left; exact hmv

theorem clicks_group_mismatch (g : List Nat) (s : Game) (hs : s.flipped = [])
    (hg : g.length = s.duplicateCount) (hne : g ≠ []) (hnd : g.Nodup)
    (hh : ∀ i ∈ g, isHidden s.cards i = true) (hmv : s.moves < s.maxMoves)
    (hdiff : allSame s.cards g = false) :
    clicks s g = limitCheck { s with cards := forEachCard addFlipped g s.cards,
                                     flipped := g, moves := s.moves + 1,
                                     timers := s.timers + 1 } := by
  rw [clicks_group g s hs hg hne hnd hh hmv]
  congr 1
  have : allSame (forEachCard addFlipped g s.cards) g = false := by
    rw [allSame_congr s.cards _ g (backgroundImage_forEachCard addFlipped (fun _ => rfl) g s.cards)]
    exact hdiff
  simp [resolveGroup, this]

theorem clicks_group_match (g : List Nat) (s : Game) (hs : s.flipped = [])
    (hg : g.length = s.duplicateCount) (hne : g ≠ []) (hnd : g.Nodup)
    (hh : ∀ i ∈ g, isHidden s.cards i = true) (hmv : s.moves < s.maxMoves)
    (hsame : allSame s.cards g = true) :
    clicks s g =
      limitCheck
        (if s.matchCount + 1 = (s.gridSize * s.gridSize) / s.duplicateCount then
          winBlock { s with cards := forEachCard addMatched g (forEachCard addFlipped g s.cards),
                            flipped := [], moves := s.moves + 1,
                            matchCount := s.matchCount + 1 }
        else { s with cards := forEachCard addMatched g (forEachCard addFlipped g s.cards),
                      flipped := [], moves := s.moves + 1,
                      matchCount := s.matchCount + 1 }) := by
  rw [clicks_group g s hs hg hne hnd hh hmv]
  congr 1
  have : allSame (forEachCard addFlipped g s.cards) g = true := by
    rw [allSame_congr s.cards _ g (backgroundImage_forEachCard addFlipped (fun _ => rfl) g s.cards)]
    exact hsame
  simp [resolveGroup, this]

theorem limitCheck_moves (s : Game) : (limitCheck s).moves = s.moves := by
  unfold limitCheck; split <;> rfl

theorem limitCheck_matchCount (s : Game) : (limitCheck s).matchCount = s.matchCount := by
  unfold limitCheck; split <;> rfl

theorem limitCheck_flipped (s : Game) : (limitCheck s).flipped = s.flipped := by
  unfold limitCheck; split <;> rfl

theorem limitCheck_cards (s : Game) : (limitCheck s).cards = s.cards := by
  unfold limitCheck; split <;> rfl

theorem limitCheck_timers (s : Game) : (limitCheck s).timers = s.timers := by
  unfold limitCheck; split <;> rfl

theorem limitCheck_best (s : Game) : (limitCheck s).best = s.best := by
  unfold limitCheck; split <;> rfl

theorem limitCheck_config (s : Game) :
    (limitCheck s).gridSize = s.gridSize ∧ (limitCheck s).duplicateCount = s.duplicateCount ∧
    (limitCheck s).maxMoves = s.maxMoves := by
  unfold limitCheck; split <;> simp

theorem outcome_limitCheck_of_ge (s : Game) (h : s.maxMoves ≤ s.moves) :
    outcome (limitCheck s) = Outcome.lost := by
  simp [limitCheck, h, outcome]

theorem limitCheck_of_lt (s : Game) (h : s.moves < s.maxMoves) : limitCheck s = s := by
  simp [limitCheck, Nat.not_le.mpr h]

theorem allSame_eq_false_of_ne (cards : List Card) (g : List Nat)
    (hdiff : ∃ i ∈ g, ∃ j ∈ g, backgroundImage cards i ≠ backgroundImage cards j) :
    allSame cards g = false := by
  obtain ⟨i, hi, j, hj, hij⟩ := hdiff
  cases g with
  | nil => cases hi
  | cons c0 rest =>
    by_contra hne
    have hall : allSame cards (c0 :: rest) = true := by simpa using hne
    unfold allSame at hall
    simp only [List.all_eq_true, beq_iff_eq] at hall
    exact hij ((hall i hi).trans (hall j hj).symm)

theorem allSame_eq_true_of_eq (cards : List Card) (g : List Nat)
    (hsame : ∀ i ∈ g, ∀ j ∈ g, backgroundImage cards i = backgroundImage cards j) :
    allSame cards g = true := by
  cases g with
  | nil => rfl
  | cons c0 rest =>
    unfold allSame
    simp only [List.all_eq_true, beq_iff_eq]
    intro i hi
    exact hsame i hi c0 (List.mem_cons_self _ _)

/-- C6: in a session with empty selection and `moves < maxMoves`, clicking `duplicateCount`
distinct hidden cards whose background images are not all equal increments `moves` exactly
once, on the last of the clicks and on none before; `matches` is unchanged; the clicked cards
are the selection and one callback is scheduled; once the callback has run the selection is
empty and all those cards are hidden again; and with `maxMoves = 1` the outcome is lost
already before the callback runs. -/
theorem mismatch_group (s : Game) (g : List Nat)
    (hs : s.flipped = []) (hmv : s.moves < s.maxMoves)
    (hg : g.length = s.duplicateCount) (hnd : g.Nodup)
    (hh : ∀ i ∈ g, isHidden s.cards i = true)
    (hdiff : ∃ i ∈ g, ∃ j ∈ g, backgroundImage s.cards i ≠ backgroundImage s.cards j) :
    (∀ k, k < g.length → (clicks s (g.take k)).moves = s.moves) ∧
    (clicks s g).moves = s.moves + 1 ∧
    (clicks s g).matchCount = s.matchCount ∧
    (clicks s g).flipped = g ∧
    (clicks s g).timers = s.timers + 1 ∧
    (fireTimer (clicks s g)).flipped = [] ∧
    (∀ i ∈ g, isHidden (fireTimer (clicks s g)).cards i = true) ∧
    (fireTimer (clicks s g)).moves = s.moves + 1 ∧
    (fireTimer (clicks s g)).matchCount = s.matchCount ∧
    (s.maxMoves = 1 → outcome (clicks s g) = Outcome.lost) := by
  have hne : g ≠ [] := by
    obtain ⟨i, hi, _⟩ := hdiff
    exact List.ne_nil_of_mem hi
  have hfalse := allSame_eq_false_of_ne s.cards g hdiff
  have hmis := clicks_group_mismatch g s hs hg hne hnd hh hmv hfalse
  have hfire : fireTimer (clicks s g)
      = mismatchCallback { clicks s g with timers := (clicks s g).timers - 1 } := by
    have : (clicks s g).timers ≠ 0 := by rw [hmis, limitCheck_timers]; simp
    simp [fireTimer, this]
  refine ⟨?_, ?_, ?_, ?_, ?_, ?_, ?_, ?_, ?_, ?_⟩
  · intro k hk
    rw [clicks_select (g.take k) s (hnd.sublist (List.take_sublist k g))
      (fun i hi => hh i (List.mem_of_mem_take hi))
      (by rw [hs, List.length_take]; simp; omega) (Or.inl hmv)]
  · rw [hmis, limitCheck_moves]
  · rw [hmis, limitCheck_matchCount]
  · rw [hmis, limitCheck_flipped]
  · rw [hmis, limitCheck_timers]
  · rw [hfire]; rfl
  · intro i hi
    rw [hfire]
    simp only [mismatchCallback]
    rw [hmis, limitCheck_flipped, limitCheck_cards]
    simp only
    obtain ⟨c, hc, hcf, hcm⟩ := (isHidden_iff _ _).mp (hh i hi)
    unfold isHidden
    rw [forEachCard_getElem?_of_mem removeFlipped removeFlipped_idem g _ i hi,
      forEachCard_getElem?_of_mem addFlipped addFlipped_idem g _ i hi, hc]
    simp [removeFlipped, addFlipped, hcm]
  · rw [hfire]
    simp only [mismatchCallback]
    rw [hmis, limitCheck_moves]
  · rw [hfire]
    simp only [mismatchCallback]
    rw [hmis, limitCheck_matchCount]
  · intro h1
    rw [hmis]
    apply outcome_limitCheck_of_ge
    simp only
    omega

/-! ## A run of matching groups -/

theorem winBlock_proj (s : Game) :
    (winBlock s).moves = s.moves ∧ (winBlock s).matchCount = s.matchCount ∧
    (winBlock s).flipped = s.flipped ∧ (winBlock s).cards = s.cards ∧
    (winBlock s).gridSize = s.gridSize ∧ (winBlock s).duplicateCount = s.duplicateCount ∧
    (winBlock s).maxMoves = s.maxMoves ∧ (winBlock s).timers = s.timers ∧
    (winBlock s).modalHidden = false ∧ (winBlock s).modalTitle = ModalTitle.congrats := by
  unfold winBlock
  simp only
  split
  · simp
  · split <;> simp

theorem clicks_group_match_proj (g : List Nat) (s : Game) (hs : s.flipped = [])
    (hg : g.length = s.duplicateCount) (hne : g ≠ []) (hnd : g.Nodup)
    (hh : ∀ i ∈ g, isHidden s.cards i = true) (hmv : s.moves + 1 < s.maxMoves)
    (hsame : allSame s.cards g = true) :
    (clicks s g).moves = s.moves + 1 ∧ (clicks s g).matchCount = s.matchCount + 1 ∧
    (clicks s g).flipped = [] ∧
    (clicks s g).cards = forEachCard addMatched g (forEachCard addFlipped g s.cards) ∧
    (clicks s g).gridSize = s.gridSize ∧ (clicks s g).duplicateCount = s.duplicateCount ∧
    (clicks s g).maxMoves = s.maxMoves ∧
    (s.matchCount + 1 = (s.gridSize * s.gridSize) / s.duplicateCount →
      outcome (clicks s g) = Outcome.won) := by
  rw [clicks_group_match g s hs hg hne hnd hh (by omega) hsame]
  split
  · rename_i hwin
    have hp := winBlock_proj { s with
      cards := forEachCard addMatched g (forEachCard addFlipped g s.cards),
      flipped := [], moves := s.moves + 1, matchCount := s.matchCount + 1 }
    simp only at hp
    obtain ⟨h1, h2, h3, h4, h5, h6, h7, _, h9, h10⟩ := hp
    rw [limitCheck_of_lt _ (by rw [h1, h7]; exact hmv)]
    refine ⟨h1, h2, h3, h4, h5, h6, h7, fun _ => ?_⟩
    simp [outcome, h9, h10]
  · rename_i hwin
    rw [limitCheck_of_lt _ (by simpa using hmv)]
    exact ⟨rfl, rfl, rfl, rfl, rfl, rfl, rfl, fun h => absurd h hwin⟩

theorem clicks_groups (gs : List (List Nat)) (s : Game) (hs : s.flipped = [])
    (hd : 1 ≤ s.duplicateCount)
    (hlen : ∀ g ∈ gs, g.length = s.duplicateCount)
    (hnd : gs.flatten.Nodup)
    (hh : ∀ i ∈ gs.flatten, isHidden s.cards i = true)
    (hsame : ∀ g ∈ gs, ∀ i ∈ g, ∀ j ∈ g, backgroundImage s.cards i = backgroundImage s.cards j)
    (hmv : s.moves + gs.length < s.maxMoves) :
    (clicks s gs.flatten).moves = s.moves + gs.length ∧
    (clicks s gs.flatten).matchCount = s.matchCount + gs.length ∧
    (clicks s gs.flatten).flipped = [] ∧
    (∀ i ∈ gs.flatten, isMatched (clicks s gs.flatten).cards i = true) ∧
    (∀ i, i ∉ gs.flatten → (clicks s gs.flatten).cards[i]? = s.cards[i]?) ∧
    (gs ≠ [] → s.matchCount + gs.length = (s.gridSize * s.gridSize) / s.duplicateCount →
      outcome (clicks s gs.flatten) = Outcome.won) := by
  induction gs generalizing s with
  | nil => simp [clicks_nil, hs]
  | cons g rest ih =>
    have hgl : g.length = s.duplicateCount := hlen g (List.mem_cons_self _ _)
    have hne : g ≠ [] := by
      intro e
      rw [e] at hgl
      simp at hgl
      omega
    simp only [List.flatten_cons] at hnd hh ⊢
    have hnd' := List.nodup_append.mp hnd
    simp only [List.length_cons] at hmv ⊢
    have hstep := clicks_group_match_proj g s hs hgl hne hnd'.1
      (fun i hi => hh i (List.mem_append_left _ hi)) (by omega)
      (allSame_eq_true_of_eq s.cards g (hsame g (List.mem_cons_self _ _)))
    obtain ⟨hm, hmc, hfl, hcards, hgs, hdc, hmm, hwon⟩ := hstep
    have hframe : ∀ i, i ∉ g → (clicks s g).cards[i]? = s.cards[i]? := by
      intro i hi
      rw [hcards, forEachCard_getElem?_of_not_mem _ _ _ _ hi,
        forEachCard_getElem?_of_not_mem _ _ _ _ hi]
    have hbg : ∀ i, backgroundImage (clicks s g).cards i = backgroundImage s.cards i := by
      intro i
      rw [hcards, backgroundImage_forEachCard addMatched (fun _ => rfl),
        backgroundImage_forEachCard addFlipped (fun _ => rfl)]
    have hih := ih (clicks s g) hfl (by rw [hdc]; exact hd)
      (fun g' hg' => by rw [hdc]; exact hlen g' (List.mem_cons_of_mem _ hg'))
      hnd'.2.1
      (fun i hi => by
        have hig : i ∉ g := fun hig => hnd'.2.2 hig hi
        unfold isHidden
        rw [hframe i hig]
        exact hh i (List.mem_append_right _ hi))
      (fun g' hg' i hi j hj => by
        rw [hbg, hbg]
        exact hsame g' (List.mem_cons_of_mem _ hg') i hi j hj)
      (by rw [hm, hmm]; omega)
    obtain ⟨i1, i2, i3, i4, i5, i6⟩ := hih
    rw [clicks_append]
    refine ⟨by rw [i1, hm]; omega, by rw [i2, hmc]; omega, i3, ?_, ?_, ?_⟩
    · intro i hi
      by_cases hir : i ∈ rest.flatten
      · exact i4 i hir
      · have hig : i ∈ g := by
          rcases List.mem_append.mp hi with h | h
          · exact h
          · exact absurd h hir
        unfold isMatched
        rw [i5 i hir, hcards, forEachCard_getElem?_of_mem addMatched addMatched_idem g _ i hig,
          forEachCard_getElem?_of_mem addFlipped addFlipped_idem g _ i hig]
        obtain ⟨c, hc, _⟩ := (isHidden_iff _ _).mp (hh i (List.mem_append_left _ hig))
        rw [hc]
        rfl
    · intro i hi
      rw [List.mem_append, not_or] at hi
      rw [i5 i hi.2, hframe i hi.1]
    · intro _ hG
      by_cases hr : rest = []
      · subst hr
        simp only [List.flatten_nil, clicks_nil, List.length_nil] at hG ⊢
        exact hwon (by omega)
      · apply i6 hr
        rw [hmc, hgs, hdc]
        omega

theorem length_flatten_of_length (gs : List (List Nat)) (n : Nat)
    (h : ∀ g ∈ gs, g.length = n) : gs.flatten.length = gs.length * n := by
  induction gs with
  | nil => simp
  | cons g rest ih =>
    rw [List.flatten_cons, List.length_append, h g (List.mem_cons_self _ _),
      ih (fun g' hg' => h g' (List.mem_cons_of_mem _ hg')), List.length_cons]
    rw [Nat.add_mul, Nat.one_mul, Nat.add_comm]

theorem newCards_getElem? (deck : List Nat) (i : Nat) :
    (newCards deck)[i]? = (deck[i]?).map (fun src => { src := src, flipped := false, matched := false }) := by
  simp [newCards]

theorem backgroundImage_newCards (deck : List Nat) (i : Nat) :
    backgroundImage (newCards deck) i = deck[i]? := by
  unfold backgroundImage
  rw [newCards_getElem?]
  cases deck[i]? <;> rfl

theorem isHidden_newCards (deck : List Nat) (i : Nat) (h : i < deck.length) :
    isHidden (newCards deck) i = true := by
  unfold isHidden
  rw [newCards_getElem?, List.getElem?_eq_getElem h]
  rfl

/-- C3: in a session of `gridSize * gridSize` cards whose positions split into groups of
`groupSize` equal-faced cards each and whose move limit exceeds the number `G` of groups,
clicking the cards group by group from the fresh state marks every card matched and ends with
outcome won, `matches = G` and `moves = G`, where `G = gridSize * gridSize / groupSize` and
`groupSize` divides `gridSize * gridSize`. -/
theorem perfect_game (gridSize groupSize moveLimit : Nat) (deck : List Nat)
    (best : Nat → Option Int) (groups : List (List Nat))
    (hgrid : 1 ≤ gridSize) (hdeck : deck.length = gridSize * gridSize)
    (hsize : ∀ g ∈ groups, g.length = groupSize)
    (hface : ∀ g ∈ groups, ∀ i ∈ g, ∀ j ∈ g, deck[i]? = deck[j]?)
    (hcover : groups.flatten.Perm (List.range (gridSize * gridSize)))
    (hlimit : groups.length < moveLimit) :
    groupSize ∣ gridSize * gridSize ∧
    groups.length = gridSize * gridSize / groupSize ∧
    outcome (clicks (freshSession gridSize groupSize moveLimit deck best) groups.flatten)
      = Outcome.won ∧
    (clicks (freshSession gridSize groupSize moveLimit deck best) groups.flatten).matchCount
      = groups.length ∧
    (clicks (freshSession gridSize groupSize moveLimit deck best) groups.flatten).moves
      = groups.length ∧
    (clicks (freshSession gridSize groupSize moveLimit deck best) groups.flatten).flipped = [] ∧
    (∀ i, i < gridSize * gridSize →
      isMatched (clicks (freshSession gridSize groupSize moveLimit deck best)
        groups.flatten).cards i = true) := by
  have htot : 1 ≤ gridSize * gridSize := Nat.mul_pos hgrid hgrid
  have hflen : groups.length * groupSize = gridSize * gridSize := by
    rw [← length_flatten_of_length groups groupSize hsize, hcover.length_eq, List.length_range]
  have hd : 1 ≤ groupSize := by
    rcases Nat.eq_zero_or_pos groupSize with h | h
    · rw [h, Nat.mul_zero] at hflen
      omega
    · exact h
  have hdvd : groupSize ∣ gridSize * gridSize := ⟨groups.length, by rw [← hflen, Nat.mul_comm]⟩
  have hG : groups.length = gridSize * gridSize / groupSize := by
    rw [← hflen, Nat.mul_div_cancel _ hd]
  have hne : groups ≠ [] := by
    intro e
    rw [e] at hflen
    simp at hflen
    omega
  have hmem : ∀ i, i ∈ groups.flatten ↔ i < gridSize * gridSize := by
    intro i
    rw [hcover.mem_iff, List.mem_range]
  have h := clicks_groups groups (freshSession gridSize groupSize moveLimit deck best) rfl hd
    hsize (hcover.nodup_iff.mpr (List.nodup_range _))
    (fun i hi => isHidden_newCards deck i (by rw [hdeck]; exact (hmem i).mp hi))
    (fun g hg i hi j hj => by
      show backgroundImage (newCards deck) i = backgroundImage (newCards deck) j
      rw [backgroundImage_newCards, backgroundImage_newCards]
      exact hface g hg i hi j hj)
    (by simpa [freshSession] using hlimit)
  obtain ⟨h1, h2, h3, h4, _, h6⟩ := h
  refine ⟨hdvd, hG, h6 hne (by simpa [freshSession] using hG), ?_, ?_, h3, ?_⟩
  · simpa [freshSession] using h2
  · simpa [freshSession] using h1
  · intro i hi
    exact h4 i ((hmem i).mpr hi)

theorem shuffledDeck_eq : shuffledDeck = [5, 1, 7, 1, 6, 2, 8, 2, 5, 3, 6, 3, 7, 4, 8, 4] := by
  decide

theorem perfect_game_witness :
    (1 ≤ 4 ∧ shuffledDeck.length = 4 * 4 ∧
      (∀ g ∈ shuffledGroups, g.length = 2) ∧
      (∀ g ∈ shuffledGroups, ∀ i ∈ g, ∀ j ∈ g, shuffledDeck[i]? = shuffledDeck[j]?) ∧
      shuffledGroups.flatten.Perm (List.range (4 * 4)) ∧
      shuffledGroups.length < 50) ∧
    (2 ∣ 4 * 4 ∧
    shuffledGroups.length = 4 * 4 / 2 ∧
    outcome (clicks (freshSession 4 2 50 shuffledDeck noBest) shuffledGroups.flatten)
      = Outcome.won ∧
    (clicks (freshSession 4 2 50 shuffledDeck noBest) shuffledGroups.flatten).matchCount
      = shuffledGroups.length ∧
    (clicks (freshSession 4 2 50 shuffledDeck noBest) shuffledGroups.flatten).moves
      = shuffledGroups.length ∧
    (clicks (freshSession 4 2 50 shuffledDeck noBest) shuffledGroups.flatten).flipped = [] ∧
    (∀ i, i < 4 * 4 →
      isMatched (clicks (freshSession 4 2 50 shuffledDeck noBest)
        shuffledGroups.flatten).cards i = true)) := by
  have h1 : 1 ≤ 4 := by decide
  have h2 : shuffledDeck.length = 4 * 4 := by decide
  have h3 : ∀ g ∈ shuffledGroups, g.length = 2 := by decide
  have h4 : ∀ g ∈ shuffledGroups, ∀ i ∈ g, ∀ j ∈ g, shuffledDeck[i]? = shuffledDeck[j]? := by
    rw [shuffledDeck_eq]; decide
  have h5 : shuffledGroups.flatten.Perm (List.range (4 * 4)) := by decide
  have h6 : shuffledGroups.length < 50 := by decide
  exact ⟨⟨h1, h2, h3, h4, h5, h6⟩,
    perfect_game 4 2 50 shuffledDeck noBest shuffledGroups h1 h2 h3 h4 h5 h6⟩

/-! ## The best score -/

/-- The value of `localStorage` under the key of the grid size after a win in `moves` moves. -/
theorem winBlock_best (s : Game) :
    (winBlock s).best = Function.update s.best s.gridSize
      (match s.best s.gridSize with
        | none => some (s.moves : Int)
        | some b => if (s.moves : Int) < b then some (s.moves : Int) else some b) := by
  unfold winBlock
  simp only
  split
  · rename_i h; simp [h]
  · rename_i b h
    split
    · simp [h, *]
    · rename_i hlt
      simp only [h, if_neg hlt]
      funext k
      by_cases hk : k = s.gridSize
      · subst hk; simp [h]
      · simp [Function.update, hk]

theorem handleCardClick_best_cases (s : Game) (i : Nat) :
    ((handleCardClick s i).matchCount = s.matchCount ∧ (handleCardClick s i).best = s.best) ∨
    ((handleCardClick s i).matchCount = s.matchCount + 1 ∧
      (handleCardClick s i).moves = s.moves + 1 ∧
      s.matchCount + 1 ≠ s.gridSize * s.gridSize / s.duplicateCount ∧
      (handleCardClick s i).best = s.best) ∨
    ((handleCardClick s i).matchCount = s.matchCount + 1 ∧
      (handleCardClick s i).moves = s.moves + 1 ∧
      s.matchCount + 1 = s.gridSize * s.gridSize / s.duplicateCount ∧
      (handleCardClick s i).best = Function.update s.best s.gridSize
        (match s.best s.gridSize with
          | none => some ((s.moves + 1 : Nat) : Int)
          | some b => if ((s.moves + 1 : Nat) : Int) < b then some ((s.moves + 1 : Nat) : Int)
                      else some b)) := by
  unfold handleCardClick
  split
  · left; exact ⟨rfl, rfl⟩
  · split
    · left; exact ⟨rfl, rfl⟩
    · simp only
      split
      · rw [limitCheck_matchCount, limitCheck_best, limitCheck_moves]
        unfold resolveGroup
        simp only
        split
        · split
          · rename_i hwin
            right; right
            refine ⟨?_, ?_, hwin, ?_⟩
            · exact (winBlock_proj _).2.1
            · exact (winBlock_proj _).1
            · rw [winBlock_best]
          · rename_i hwin
            right; left
            exact ⟨rfl, rfl, hwin, rfl⟩
        · left; exact ⟨rfl, rfl⟩
      · left; exact ⟨rfl, rfl⟩

/-- C7: a click that matches the last group (`matches` is incremented and reaches
`⌊gridSize * gridSize / duplicateCount⌋`) stores `moves` as the best score of the grid size
when no best was stored or `moves` is strictly smaller than the stored best, and leaves the
stored best unchanged otherwise; no other click changes a best score; so a stored best never
increases, and the best scores of the other grid sizes are never changed. -/
theorem best_score_rule (s : Game) (i : Nat) :
    (((handleCardClick s i).matchCount = s.matchCount + 1 ∧
        (handleCardClick s i).matchCount = s.gridSize * s.gridSize / s.duplicateCount) →
      (handleCardClick s i).best s.gridSize =
        match s.best s.gridSize with
        | none => some ((handleCardClick s i).moves : Int)
        | some b => if ((handleCardClick s i).moves : Int) < b
                    then some ((handleCardClick s i).moves : Int) else some b) ∧
    (¬ ((handleCardClick s i).matchCount = s.matchCount + 1 ∧
        (handleCardClick s i).matchCount = s.gridSize * s.gridSize / s.duplicateCount) →
      (handleCardClick s i).best = s.best) ∧
    (∀ b, s.best s.gridSize = some b →
      ∃ b', (handleCardClick s i).best s.gridSize = some b' ∧ b' ≤ b) ∧
    (∀ k, k ≠ s.gridSize → (handleCardClick s i).best k = s.best k) := by
  rcases handleCardClick_best_cases s i with ⟨h1, h2⟩ | ⟨h1, h2, h3, h4⟩ | ⟨h1, h2, h3, h4⟩
  · refine ⟨fun hw => ?_, fun _ => h2, fun b hb => ⟨b, by rw [h2, hb], le_refl b⟩,
      fun k _ => by rw [h2]⟩
    omega
  · refine ⟨fun hw => ?_, fun _ => h4, fun b hb => ⟨b, by rw [h4, hb], le_refl b⟩,
      fun k _ => by rw [h4]⟩
    omega
  · refine ⟨fun _ => ?_, fun hw => ?_, fun b hb => ?_, fun k hk => ?_⟩
    · rw [h4, h2, Function.update_same]
    · exact absurd ⟨h1, by omega⟩ hw
    · rw [h4, Function.update_same, hb]
      simp only
      split
      · rename_i hlt; exact ⟨_, rfl, le_of_lt hlt⟩
      · exact ⟨b, rfl, le_refl b⟩
    · rw [h4, Function.update_noteq hk]

/-! ## Evaluations on concrete sessions -/

set_option maxRecDepth 100000

theorem pairsDeck_eq : pairsDeck = [1, 1, 2, 2, 3, 3, 4, 4, 5, 5, 6, 6, 7, 7, 8, 8] := by
  decide

theorem sixesDeck_eq : sixesDeck = [1, 1, 1, 1, 1, 1, 2, 2, 2, 2, 2, 2, 3, 3, 3, 3] := by
  decide

theorem mismatch_group_witness :
    ((freshSession 4 2 1 pairsDeck noBest).flipped = [] ∧
      (freshSession 4 2 1 pairsDeck noBest).moves < (freshSession 4 2 1 pairsDeck noBest).maxMoves ∧
      [0, 2].length = (freshSession 4 2 1 pairsDeck noBest).duplicateCount ∧
      [0, 2].Nodup ∧
      (∀ i ∈ [0, 2], isHidden (freshSession 4 2 1 pairsDeck noBest).cards i = true) ∧
      (∃ i ∈ [0, 2], ∃ j ∈ [0, 2],
        backgroundImage (freshSession 4 2 1 pairsDeck noBest).cards i
          ≠ backgroundImage (freshSession 4 2 1 pairsDeck noBest).cards j)) ∧
    (clicks (freshSession 4 2 1 pairsDeck noBest) [0, 2]).moves = 1 ∧
    (clicks (freshSession 4 2 1 pairsDeck noBest) [0, 2]).matchCount = 0 ∧
    (fireTimer (clicks (freshSession 4 2 1 pairsDeck noBest) [0, 2])).flipped = [] ∧
    (∀ i ∈ [0, 2],
      isHidden (fireTimer (clicks (freshSession 4 2 1 pairsDeck noBest) [0, 2])).cards i = true) ∧
    outcome (clicks (freshSession 4 2 1 pairsDeck noBest) [0, 2]) = Outcome.lost := by
  have h1 : (freshSession 4 2 1 pairsDeck noBest).flipped = [] := rfl
  have h2 : (freshSession 4 2 1 pairsDeck noBest).moves
      < (freshSession 4 2 1 pairsDeck noBest).maxMoves := by decide
  have h3 : [0, 2].length = (freshSession 4 2 1 pairsDeck noBest).duplicateCount := rfl
  have h4 : [0, 2].Nodup := by decide
  have h5 : ∀ i ∈ [0, 2], isHidden (freshSession 4 2 1 pairsDeck noBest).cards i = true := by
    decide
  have h6 : ∃ i ∈ [0, 2], ∃ j ∈ [0, 2],
      backgroundImage (freshSession 4 2 1 pairsDeck noBest).cards i
        ≠ backgroundImage (freshSession 4 2 1 pairsDeck noBest).cards j :=
    ⟨0, by decide, 2, by decide, by decide⟩
  have h := mismatch_group (freshSession 4 2 1 pairsDeck noBest) [0, 2] h1 h2 h3 h4 h5 h6
  exact ⟨⟨h1, h2, h3, h4, h5, h6⟩, h.2.1, h.2.2.1, h.2.2.2.2.2.1, h.2.2.2.2.2.2.1,
    h.2.2.2.2.2.2.2.2.2 rfl⟩

theorem best_score_rule_witness :
    lastPairState.best 4 = some 10 ∧
    (handleCardClick lastPairState 15).moves = 8 ∧
    (handleCardClick lastPairState 15).best 4 = some 8 :=
  ⟨rfl, rfl, (best_score_rule lastPairState 15).1 ⟨rfl, rfl⟩⟩

/-- C4, evaluated: 8 pairs with move limit 8, all pairs matched in order. The eighth match is
the last one (`matches = 8 = ⌊16 / 2⌋`, every card matched, the best score 8 stored) and it is
the move that reaches the limit; the modal then reads as a loss. -/
theorem win_on_limit_reads_lost :
    (clicks (freshSession 4 2 8 pairsDeck noBest) (List.range 15)).moves = 7 ∧
    outcome (clicks (freshSession 4 2 8 pairsDeck noBest) (List.range 15)) = Outcome.ongoing ∧
    (clicks (freshSession 4 2 8 pairsDeck noBest) (List.range 16)).moves = 8 ∧
    (clicks (freshSession 4 2 8 pairsDeck noBest) (List.range 16)).matchCount = 4 * 4 / 2 ∧
    (∀ i, i < 16 →
      isMatched (clicks (freshSession 4 2 8 pairsDeck noBest) (List.range 16)).cards i = true) ∧
    (clicks (freshSession 4 2 8 pairsDeck noBest) (List.range 16)).best 4 = some 8 ∧
    outcome (clicks (freshSession 4 2 8 pairsDeck noBest) (List.range 16)) = Outcome.lost :=
  ⟨rfl, rfl, rfl, rfl, by decide, rfl, rfl⟩

theorem clampMaxMoves_of_neg (n : Int) (h : n < 0) : clampMaxMoves (some n) = 1 := by
  have h0 : n ≠ 0 := by omega
  have h1 : ¬ n > 999 := by omega
  simp only [clampMaxMoves, orDefault, if_neg h0, if_neg h1]
  omega

theorem clampMaxMoves_of_gt (n : Int) (h : 999 < n) : clampMaxMoves (some n) = 999 := by
  have h0 : n ≠ 0 := by omega
  have h1 : n > 999 := h
  simp only [clampMaxMoves, orDefault, if_neg h0, if_pos h1, DEFAULT_MAX_MOVES]
  omega

/-- C9, evaluated: the input `0` is falsy in `parseInt(...) || DEFAULT_MAX_MOVES`, so it is
replaced by 999 before `Math.max(1, ...)` is applied; `startGame` sets `maxMoves = 999`. -/
theorem clampMaxMoves_zero :
    clampMaxMoves (some 0) = 999 ∧
    ∀ (draws : Nat → Nat) (dupInput : Option Int) (s : Game),
      (startGame draws dupInput (some 0) s).maxMoves = 999 :=
  ⟨rfl, fun _ _ _ => rfl⟩

/-- C10 fails as stated: a mismatch callback is pending, the game is restarted, one card of
the new session is clicked, and then the callback of the old session runs: it empties the
selection of the new session and turns its clicked card face down again. -/
theorem stale_callback_changes_new_session :
    pendingSession.timers = 1 ∧
    restartedSession.timers = 1 ∧ restartedSession.flipped = [] ∧ restartedSession.moves = 0 ∧
    (∀ i, i < 16 → isHidden restartedSession.cards i = true) ∧
    restartedOneClick.flipped = [0] ∧ isHidden restartedOneClick.cards 0 = false ∧
    (fireTimer restartedOneClick).flipped = [] ∧
    isHidden (fireTimer restartedOneClick).cards 0 = true :=
  ⟨rfl, rfl, rfl, rfl, by decide, rfl, rfl, rfl, rfl⟩

/-! ## The invariant of a session -/

theorem handleCardClick_rejected (s : Game) (i : Nat)
    (h : isHidden s.cards i = false ∨ s.duplicateCount ≤ s.flipped.length ∨
      (s.maxMoves ≤ s.moves ∧ s.flipped = [])) :
    handleCardClick s i = s := by
  unfold handleCardClick
  cases hc : s.cards[i]? with
  | none => rfl
  | some c =>
    simp only
    rw [if_pos]
    rcases h with h | h | ⟨h1, h2⟩
    · unfold isHidden at h
      rw [hc] at h
      simp only at h
      cases hf : c.flipped <;> cases hm : c.matched <;> simp_all
    · simp [h]
    · simp [h1, h2]

theorem handleCardClick_shape (s : Game) (i : Nat) :
    handleCardClick s i = s ∨
    (isHidden s.cards i = true ∧ s.flipped.length + 1 < s.duplicateCount ∧
      (s.moves < s.maxMoves ∨ s.flipped ≠ []) ∧
      handleCardClick s i
        = { s with cards := s.cards.modify addFlipped i, flipped := s.flipped ++ [i] }) ∨
    (isHidden s.cards i = true ∧ s.flipped.length + 1 = s.duplicateCount ∧
      (s.moves < s.maxMoves ∨ s.flipped ≠ []) ∧
      handleCardClick s i
        = limitCheck (resolveGroup { s with cards := s.cards.modify addFlipped i,
                                            flipped := s.flipped ++ [i],
                                            moves := s.moves + 1 })) := by
  by_cases hh : isHidden s.cards i = true
  · by_cases hl : s.duplicateCount ≤ s.flipped.length
    · left; exact handleCardClick_rejected s i (Or.inr (Or.inl hl))
    · by_cases hm : s.maxMoves ≤ s.moves ∧ s.flipped = []
      · left; exact handleCardClick_rejected s i (Or.inr (Or.inr hm))
      · have hmv : s.moves < s.maxMoves ∨ s.flipped ≠ [] := by
          by_cases h1 : s.moves < s.maxMoves
          · exact Or.inl h1
          · exact Or.inr (fun h2 => hm ⟨by omega, h2⟩)
        by_cases he : s.flipped.length + 1 = s.duplicateCount
        · right; right
          exact ⟨hh, he, hmv, handleCardClick_complete s i hh he hmv⟩
        · right; left
          exact ⟨hh, by omega, hmv, handleCardClick_select s i hh (by omega) hmv⟩
  · left
    exact handleCardClick_rejected s i (Or.inl (by simpa using hh))

/-- Facts on the state in which the clicked card has just been added to the selection. -/
theorem Inv.accepted {s : Game} (hinv : Inv s) (i : Nat) (hh : isHidden s.cards i = true) :
    (s.flipped ++ [i]).Nodup ∧
    (∀ j ∈ s.flipped ++ [i],
      ∃ c, (s.cards.modify addFlipped i)[j]? = some c ∧ c.flipped = true ∧ c.matched = false) ∧
    (s.cards.modify addFlipped i).countP (fun c => c.matched)
      = s.matchCount * s.duplicateCount := by
  obtain ⟨c, hc, hcf, hcm⟩ := (isHidden_iff _ _).mp hh
  have hni : i ∉ s.flipped := by
    intro hi
    obtain ⟨d, hd, hdf, _⟩ := hinv.flipped_cards i hi
    rw [hc] at hd
    cases hd
    rw [hcf] at hdf
    cases hdf
  refine ⟨?_, ?_, ?_⟩
  · rw [List.nodup_append]
    refine ⟨hinv.nodup, List.nodup_singleton i, ?_⟩
    intro a ha hb
    rw [List.mem_singleton] at hb
    exact hni (hb ▸ ha)
  · intro j hj
    rcases List.mem_append.mp hj with hj | hj
    · obtain ⟨d, hd, hdf, hdm⟩ := hinv.flipped_cards j hj
      refine ⟨d, ?_, hdf, hdm⟩
      rw [List.getElem?_modify_ne _ _ (fun e : i = j => hni (e.symm ▸ hj))]
      exact hd
    · rw [List.mem_singleton] at hj
      subst hj
      refine ⟨addFlipped c, ?_, rfl, hcm⟩
      rw [List.getElem?_modify_eq, hc]
      rfl
  · rw [countP_modify_same (fun c => c.matched) addFlipped (fun _ => rfl)]
    exact hinv.matched_count

/-- A click that completes a group needs `duplicateCount` more unmatched cards. -/
theorem Inv.room {s : Game} (hinv : Inv s) (i : Nat) (hh : isHidden s.cards i = true)
    (hlen : s.flipped.length + 1 = s.duplicateCount) :
    s.matchCount + 1 ≤ s.gridSize * s.gridSize / s.duplicateCount := by
  obtain ⟨hnd, hfc, hcnt⟩ := hinv.accepted i hh
  have h := length_le_unmatched (s.flipped ++ [i]) (s.cards.modify addFlipped i) hnd
    (fun j hj => by
      obtain ⟨c, hc, _, hm⟩ := hfc j hj
      exact ⟨c, hc, hm⟩)
  rw [hcnt, List.length_modify, hinv.cards_length, List.length_append, List.length_singleton,
    hlen] at h
  rw [Nat.le_div_iff_mul_le hinv.dup_pos, Nat.add_mul, Nat.one_mul]
  exact h

theorem Inv.limitCheck {t : Game}
    (h1 : t.cards.length = t.gridSize * t.gridSize) (h2 : 1 ≤ t.duplicateCount)
    (h3 : t.flipped.Nodup)
    (h4 : ∀ i ∈ t.flipped, ∃ c, t.cards[i]? = some c ∧ c.flipped = true ∧ c.matched = false)
    (h5 : t.cards.countP (fun c => c.matched) = t.matchCount * t.duplicateCount)
    (hA : t.flipped = [] ∨ t.duplicateCount ≤ t.flipped.length)
    (hB : outcome t = Outcome.lost → t.maxMoves ≤ t.moves)
    (hC : outcome t = Outcome.won → t.matchCount = t.gridSize * t.gridSize / t.duplicateCount) :
    Inv (limitCheck t) := by
  unfold MemoGame.limitCheck
  split
  · rename_i hge
    exact
      { cards_length := h1, dup_pos := h2, nodup := h3, flipped_cards := h4,
        matched_count := h5,
        lost_limit := fun _ => ⟨hge, hA⟩,
        won_all := fun hw => by simp [outcome] at hw }
  · exact
      { cards_length := h1, dup_pos := h2, nodup := h3, flipped_cards := h4,
        matched_count := h5,
        lost_limit := fun hl => ⟨hB hl, hA⟩,
        won_all := hC }

theorem Inv.click {s : Game} (hinv : Inv s) (i : Nat) : Inv (handleCardClick s i) := by
  rcases handleCardClick_shape s i with h | ⟨hh, hlen, hmv, h⟩ | ⟨hh, hlen, hmv, h⟩
  · rw [h]; exact hinv
  · rw [h]
    obtain ⟨hnd, hfc, hcnt⟩ := hinv.accepted i hh
    have hnl : s.maxMoves ≤ s.moves ∧
        (s.flipped = [] ∨ s.duplicateCount ≤ s.flipped.length) → False := by
      rintro ⟨ha, hb | hb⟩
      · rcases hmv with h' | h'
        · omega
        · exact h' hb
      · omega
    exact
      { cards_length := by simpa using hinv.cards_length
        dup_pos := hinv.dup_pos
        nodup := hnd
        flipped_cards := hfc
        matched_count := hcnt
        lost_limit := fun hl => (hnl (hinv.lost_limit hl)).elim
        won_all := fun hw => hinv.won_all hw }
  · rw [h]
    obtain ⟨hnd, hfc, hcnt⟩ := hinv.accepted i hh
    have hroom := hinv.room i hh hlen
    have hLlen : (s.flipped ++ [i]).length = s.duplicateCount := by simpa using hlen
    unfold resolveGroup
    simp only
    split
    · -- the group matches
      have hcards : (forEachCard addMatched (s.flipped ++ [i])
          (s.cards.modify addFlipped i)).length = s.gridSize * s.gridSize := by
        rw [forEachCard_length, List.length_modify]
        exact hinv.cards_length
      have hcount : (forEachCard addMatched (s.flipped ++ [i])
          (s.cards.modify addFlipped i)).countP (fun c => c.matched)
            = (s.matchCount + 1) * s.duplicateCount := by
        rw [countP_forEachCard_addMatched _ _ hnd (fun j hj => by
          obtain ⟨c, hc, _, hm⟩ := hfc j hj
          exact ⟨c, hc, hm⟩), hcnt, hLlen, Nat.add_mul, Nat.one_mul]
      split
      · rename_i hwin
        have hp := winBlock_proj { s with
          cards := forEachCard addMatched (s.flipped ++ [i]) (s.cards.modify addFlipped i),
          flipped := [], moves := s.moves + 1, matchCount := s.matchCount + 1 }
        simp only at hp
        obtain ⟨p1, p2, p3, p4, p5, p6, p7, _, p9, p10⟩ := hp
        apply Inv.limitCheck
        · rw [p4, p5]; exact hcards
        · rw [p6]; exact hinv.dup_pos
        · rw [p3]; exact List.nodup_nil
        · rw [p3]; intro j hj; cases hj
        · rw [p4, p2, p6]; exact hcount
        · left; exact p3
        · intro hl
          simp [outcome, p9, p10] at hl
        · intro _
          rw [p2, p5, p6]
          exact hwin
      · apply Inv.limitCheck
        · exact hcards
        · exact hinv.dup_pos
        · exact List.nodup_nil
        · intro j hj; cases hj
        · exact hcount
        · left; rfl
        · intro hl
          have := (hinv.lost_limit hl).1
          show s.maxMoves ≤ s.moves + 1
          omega
        · intro hw
          have := hinv.won_all hw
          show s.matchCount + 1 = s.gridSize * s.gridSize / s.duplicateCount
          omega
    · -- the group does not match
      apply Inv.limitCheck
      · simpa using hinv.cards_length
      · exact hinv.dup_pos
      · exact hnd
      · exact hfc
      · exact hcnt
      · right
        show s.duplicateCount ≤ (s.flipped ++ [i]).length
        omega
      · intro hl
        have := (hinv.lost_limit hl).1
        show s.maxMoves ≤ s.moves + 1
        omega
      · intro hw
        exact hinv.won_all hw

theorem Inv.timeout {s : Game} (hinv : Inv s) : Inv (fireTimer s) := by
  unfold fireTimer
  split
  · exact hinv
  · exact
      { cards_length := by
          show (forEachCard removeFlipped s.flipped s.cards).length = _
          rw [forEachCard_length]
          exact hinv.cards_length
        dup_pos := hinv.dup_pos
        nodup := List.nodup_nil
        flipped_cards := fun j hj => by cases hj
        matched_count := by
          show (forEachCard removeFlipped s.flipped s.cards).countP _ = _
          rw [countP_forEachCard_same (fun c => c.matched) removeFlipped (fun _ => rfl)]
          exact hinv.matched_count
        lost_limit := fun hl => ⟨(hinv.lost_limit hl).1, Or.inl rfl⟩
        won_all := fun hw => hinv.won_all hw }

theorem newCards_countP (deck : List Nat) :
    (newCards deck).countP (fun c => c.matched) = 0 := by
  unfold newCards
  rw [List.countP_eq_zero]
  intro c hc
  obtain ⟨x, _, rfl⟩ := List.mem_map.mp hc
  simp

theorem Inv.fresh (gridSize duplicateCount maxMoves : Nat) (deck : List Nat)
    (best : Nat → Option Int) (hdeck : deck.length = gridSize * gridSize)
    (hd : 1 ≤ duplicateCount) : Inv (freshSession gridSize duplicateCount maxMoves deck best) :=
  { cards_length := by simpa [freshSession, newCards] using hdeck
    dup_pos := hd
    nodup := List.nodup_nil
    flipped_cards := fun j hj => by cases hj
    matched_count := by
      show (newCards deck).countP _ = 0 * duplicateCount
      rw [newCards_countP, Nat.zero_mul]
    lost_limit := fun hl => by simp [outcome, freshSession] at hl
    won_all := fun hw => by simp [outcome, freshSession] at hw }

theorem Inv.of_reachable {s0 s : Game} (h0 : Inv s0) (hr : Reachable s0 s) : Inv s := by
  induction hr with
  | start => exact h0
  | click s i _ ih => exact ih.click i
  | timeout s _ _ ih => exact ih.timeout

theorem handleCardClick_config (s : Game) (i : Nat) :
    (handleCardClick s i).gridSize = s.gridSize ∧
    (handleCardClick s i).duplicateCount = s.duplicateCount ∧
    (handleCardClick s i).maxMoves = s.maxMoves := by
  rcases handleCardClick_shape s i with h | ⟨_, _, _, h⟩ | ⟨_, _, _, h⟩
  · rw [h]; exact ⟨rfl, rfl, rfl⟩
  · rw [h]; exact ⟨rfl, rfl, rfl⟩
  · rw [h]
    obtain ⟨c1, c2, c3⟩ := limitCheck_config (resolveGroup { s with
      cards := s.cards.modify addFlipped i, flipped := s.flipped ++ [i],
      moves := s.moves + 1 })
    rw [c1, c2, c3]
    unfold resolveGroup
    simp only
    split
    · split
      · obtain ⟨_, _, _, _, p5, p6, p7, _⟩ := winBlock_proj { s with
          cards := forEachCard addMatched (s.flipped ++ [i]) (s.cards.modify addFlipped i),
          flipped := [], moves := s.moves + 1, matchCount := s.matchCount + 1 }
        exact ⟨p5, p6, p7⟩
      · exact ⟨rfl, rfl, rfl⟩
    · exact ⟨rfl, rfl, rfl⟩

theorem fireTimer_config (s : Game) :
    (fireTimer s).gridSize = s.gridSize ∧ (fireTimer s).duplicateCount = s.duplicateCount ∧
    (fireTimer s).maxMoves = s.maxMoves := by
  unfold fireTimer
  split <;> exact ⟨rfl, rfl, rfl⟩

theorem Reachable.config {s0 s : Game} (hr : Reachable s0 s) :
    s.gridSize = s0.gridSize ∧ s.duplicateCount = s0.duplicateCount ∧
    s.maxMoves = s0.maxMoves := by
  induction hr with
  | start => exact ⟨rfl, rfl, rfl⟩
  | click s i _ ih =>
    obtain ⟨c1, c2, c3⟩ := handleCardClick_config s i
    rw [c1, c2, c3]; exact ih
  | timeout s _ _ ih =>
    obtain ⟨c1, c2, c3⟩ := fireTimer_config s
    rw [c1, c2, c3]; exact ih

theorem Reachable.clicks {s0 s : Game} (hr : Reachable s0 s) (p : List Nat) :
    Reachable s0 (clicks s p) := by
  induction p generalizing s with
  | nil => exact hr
  | cons i p ih => exact ih (Reachable.click s i hr)

/-! ## Terminal states -/

theorem isHidden_eq_false_of_all_matched (cards : List Card) (i : Nat)
    (h : ∀ c ∈ cards, c.matched = true) : isHidden cards i = false := by
  unfold isHidden
  cases hc : cards[i]? with
  | none => rfl
  | some c =>
    have hm : c ∈ cards := by
      obtain ⟨hi, rfl⟩ := List.getElem?_eq_some_iff.mp hc
      exact List.getElem_mem hi
    simp [h c hm]

/-- C5 fails as stated: with 16 cards in groups of 6 the session is won after two groups, four
cards stay face down, and a click on one of them turns it over and selects it. -/
theorem won_state_click_changes :
    Reachable (freshSession 4 6 999 sixesDeck noBest) wonSixes ∧
    outcome wonSixes = Outcome.won ∧
    isHidden wonSixes.cards 12 = true ∧
    handleCardClick wonSixes 12 ≠ wonSixes := by
  refine ⟨Reachable.clicks Reachable.start _, rfl, rfl, ?_⟩
  intro h
  have h' : (handleCardClick wonSixes 12).flipped = wonSixes.flipped := by rw [h]
  revert h'
  decide

/-- C5, amended: in every state of a session reached from the fresh state by clicks and
mismatch callbacks, a click on any position is a no-op when the outcome is lost, and when the
outcome is won and `groupSize` divides the number of cards (then every card is matched). When
the outcome is won and face-down cards remain, a click never changes `moves`, `matches`, the
outcome or the best scores: it is a no-op or it only turns the clicked face-down card over and
appends it to the selection. -/
theorem terminal_reveal (gridSize groupSize moveLimit : Nat) (deck : List Nat)
    (best : Nat → Option Int) (hdeck : deck.length = gridSize * gridSize)
    (hd : 1 ≤ groupSize) (s : Game)
    (hr : Reachable (freshSession gridSize groupSize moveLimit deck best) s) (i : Nat) :
    (outcome s = Outcome.lost → handleCardClick s i = s) ∧
    (outcome s = Outcome.won → groupSize ∣ gridSize * gridSize →
      (∀ j, j < gridSize * gridSize → isMatched s.cards j = true) ∧ handleCardClick s i = s) ∧
    (outcome s = Outcome.won →
      (handleCardClick s i).moves = s.moves ∧
      (handleCardClick s i).matchCount = s.matchCount ∧
      outcome (handleCardClick s i) = Outcome.won ∧
      (handleCardClick s i).best = s.best ∧
      (handleCardClick s i = s ∨
        (isHidden s.cards i = true ∧
          handleCardClick s i
            = { s with cards := s.cards.modify addFlipped i, flipped := s.flipped ++ [i] }))) := by
  have hinv : Inv s := Inv.of_reachable (Inv.fresh gridSize groupSize moveLimit deck best hdeck hd) hr
  obtain ⟨cg, cd, _⟩ := hr.config
  have cg' : s.gridSize = gridSize := cg
  have cd' : s.duplicateCount = groupSize := cd
  refine ⟨fun hl => ?_, fun hw hdvd => ?_, fun hw => ?_⟩
  · obtain ⟨h1, h2⟩ := hinv.lost_limit hl
    rcases h2 with h2 | h2
    · exact handleCardClick_rejected s i (Or.inr (Or.inr ⟨h1, h2⟩))
    · exact handleCardClick_rejected s i (Or.inr (Or.inl h2))
  · have hall : ∀ c ∈ s.cards, c.matched = true := by
      have hcnt := hinv.matched_count
      rw [hinv.won_all hw, cg', cd', Nat.div_mul_cancel hdvd, ← cg', ← hinv.cards_length] at hcnt
      exact List.countP_eq_length.mp hcnt
    refine ⟨fun j hj => ?_, handleCardClick_rejected s i
      (Or.inl (isHidden_eq_false_of_all_matched s.cards i hall))⟩
    have hj' : j < s.cards.length := by rw [hinv.cards_length, cg']; exact hj
    unfold isMatched
    rw [List.getElem?_eq_getElem hj']
    exact hall _ (List.getElem_mem hj')
  · rcases handleCardClick_shape s i with h | ⟨hh, _, _, h⟩ | ⟨hh, hlen, _, _⟩
    · rw [h]
      exact ⟨rfl, rfl, hw, rfl, Or.inl rfl⟩
    · refine ⟨by rw [h], by rw [h], ?_, by rw [h], Or.inr ⟨hh, h⟩⟩
      rw [h]
      exact hw
    · have h1 := hinv.room i hh hlen
      have h2 := hinv.won_all hw
      omega

theorem terminal_reveal_witness :
    (sixesDeck.length = 4 * 4 ∧ 1 ≤ 6 ∧
      Reachable (freshSession 4 6 999 sixesDeck noBest) wonSixes) ∧
    ((outcome wonSixes = Outcome.lost → handleCardClick wonSixes 12 = wonSixes) ∧
    (outcome wonSixes = Outcome.won → 6 ∣ 4 * 4 →
      (∀ j, j < 4 * 4 → isMatched wonSixes.cards j = true) ∧
        handleCardClick wonSixes 12 = wonSixes) ∧
    (outcome wonSixes = Outcome.won →
      (handleCardClick wonSixes 12).moves = wonSixes.moves ∧
      (handleCardClick wonSixes 12).matchCount = wonSixes.matchCount ∧
      outcome (handleCardClick wonSixes 12) = Outcome.won ∧
      (handleCardClick wonSixes 12).best = wonSixes.best ∧
      (handleCardClick wonSixes 12 = wonSixes ∨
        (isHidden wonSixes.cards 12 = true ∧
          handleCardClick wonSixes 12
            = { wonSixes with cards := wonSixes.cards.modify addFlipped 12,
                              flipped := wonSixes.flipped ++ [12] })))) := by
  have h1 : sixesDeck.length = 4 * 4 := by decide
  have h2 : 1 ≤ 6 := by decide
  have h3 : Reachable (freshSession 4 6 999 sixesDeck noBest) wonSixes :=
    Reachable.clicks Reachable.start _
  exact ⟨⟨h1, h2, h3⟩, terminal_reveal 4 6 999 sixesDeck noBest h1 h2 wonSixes h3 12⟩

/-! ## A callback that outlives a restart -/

theorem handleCardClick_timers (s : Game) (i : Nat) :
    s.timers ≤ (handleCardClick s i).timers := by
  rcases handleCardClick_shape s i with h | ⟨_, _, _, h⟩ | ⟨_, _, _, h⟩
  · rw [h]
  · rw [h]
  · rw [h, limitCheck_timers]
    unfold resolveGroup
    simp only
    split
    · split
      · rw [(winBlock_proj _).2.2.2.2.2.2.2.1]
      · exact Nat.le_refl _
    · exact Nat.le_succ _

theorem clicks_timers (p : List Nat) (s : Game) : s.timers ≤ (clicks s p).timers := by
  induction p generalizing s with
  | nil => exact Nat.le_refl _
  | cons i p ih => exact Nat.le_trans (handleCardClick_timers s i) (ih _)

theorem isMatched_forEachCard_removeFlipped (L : List Nat) (cards : List Card) (j : Nat) :
    isMatched (forEachCard removeFlipped L cards) j = isMatched cards j := by
  unfold isMatched
  by_cases hj : j ∈ L
  · rw [forEachCard_getElem?_of_mem removeFlipped removeFlipped_idem L cards j hj]
    cases cards[j]? <;> rfl
  · rw [forEachCard_getElem?_of_not_mem removeFlipped L cards j hj]

/-- C10, amended: a callback scheduled before a restart is still scheduled in the new
session, whatever was clicked there; when it runs it empties the selection of the new session
and removes the class `flipped` from the cards of that selection. It changes nothing else:
not `moves`, `matches`, the outcome, the best scores, the class `matched` of any card, nor any
card outside the selection; with an empty selection it leaves all cards as they are. -/
theorem stale_callback_effect (old : Game) (draws : Nat → Nat) (dupInput maxInput : Option Int)
    (p : List Nat) (hpending : 0 < old.timers) :
    0 < (afterRestart old draws dupInput maxInput p).timers ∧
    (fireTimer (afterRestart old draws dupInput maxInput p)).flipped = [] ∧
    (fireTimer (afterRestart old draws dupInput maxInput p)).moves
      = (afterRestart old draws dupInput maxInput p).moves ∧
    (fireTimer (afterRestart old draws dupInput maxInput p)).matchCount
      = (afterRestart old draws dupInput maxInput p).matchCount ∧
    outcome (fireTimer (afterRestart old draws dupInput maxInput p))
      = outcome (afterRestart old draws dupInput maxInput p) ∧
    (fireTimer (afterRestart old draws dupInput maxInput p)).best
      = (afterRestart old draws dupInput maxInput p).best ∧
    (∀ j, j ∈ (afterRestart old draws dupInput maxInput p).flipped →
      (fireTimer (afterRestart old draws dupInput maxInput p)).cards[j]?
        = ((afterRestart old draws dupInput maxInput p).cards[j]?).map removeFlipped) ∧
    (∀ j, j ∉ (afterRestart old draws dupInput maxInput p).flipped →
      (fireTimer (afterRestart old draws dupInput maxInput p)).cards[j]?
        = (afterRestart old draws dupInput maxInput p).cards[j]?) ∧
    (∀ j, isMatched (fireTimer (afterRestart old draws dupInput maxInput p)).cards j
      = isMatched (afterRestart old draws dupInput maxInput p).cards j) ∧
    ((afterRestart old draws dupInput maxInput p).flipped = [] →
      (fireTimer (afterRestart old draws dupInput maxInput p)).cards
        = (afterRestart old draws dupInput maxInput p).cards) := by
  have ht : 0 < (afterRestart old draws dupInput maxInput p).timers :=
    Nat.lt_of_lt_of_le hpending (clicks_timers p (startGame draws dupInput maxInput old))
  generalize afterRestart old draws dupInput maxInput p = s at ht ⊢
  have hfire : fireTimer s = mismatchCallback { s with timers := s.timers - 1 } := by
    have : s.timers ≠ 0 := by omega
    simp [fireTimer, this]
  rw [hfire]
  refine ⟨ht, rfl, rfl, rfl, rfl, rfl, ?_, ?_, ?_, ?_⟩
  · intro j hj
    exact forEachCard_getElem?_of_mem removeFlipped removeFlipped_idem s.flipped s.cards j hj
  · intro j hj
    exact forEachCard_getElem?_of_not_mem removeFlipped s.flipped s.cards j hj
  · intro j
    exact isMatched_forEachCard_removeFlipped s.flipped s.cards j
  · intro he
    show forEachCard removeFlipped s.flipped s.cards = s.cards
    rw [he]
    rfl

theorem stale_callback_effect_witness :
    0 < pendingSession.timers ∧
    (fireTimer (afterRestart pendingSession idDraws (some 2) (some 50) [0])).flipped = [] ∧
    (fireTimer (afterRestart pendingSession idDraws (some 2) (some 50) [0])).moves
      = (afterRestart pendingSession idDraws (some 2) (some 50) [0]).moves ∧
    (∀ j, isMatched (fireTimer (afterRestart pendingSession idDraws (some 2) (some 50) [0])).cards j
      = isMatched (afterRestart pendingSession idDraws (some 2) (some 50) [0]).cards j) := by
  have h0 : 0 < pendingSession.timers := by decide
  have h := stale_callback_effect pendingSession idDraws (some 2) (some 50) [0] h0
  exact ⟨h0, h.2.1, h.2.2.1, h.2.2.2.2.2.2.2.2.1⟩

end MemoGame
